import Mathlib

/-!
# fman list controller (`model/list.go`)

A shallow embedding of the list panel of the file browser: the `ListModel`
state, the messages `Update` dispatches on, the commands it returns, and
`View` with its viewport arithmetic and `truncateText`.

Modelling conventions.

* Go `int` values (indices, slice lengths, terminal dimensions, row numbers)
  are integers `Int`. Arithmetic on values that come from outside the list,
  the caller-set field `Height` in `Height * 3` and the cell width of the
  layout in `GetWidth() - 1`, wraps at 64 bits as in Go (`wrapInt64`). The
  index arithmetic (`± 1`, `± 2`, a difference of an index and
  `maxEntryToShow`) is on values bounded by slice lengths and stays inside
  the 64-bit range. Go's `/` on `int` truncates toward zero and is `Int.tdiv`.
* A run-time panic (slice index out of range) is the result `none`.
* A `tea.Cmd` is a Go closure.  It is represented by the data it closes over,
  and `Cmd.run` executes it.  Closures whose body calls `list.SelectedEntry()`
  are kept lazy (`Cmd.selectedEntry`), since the index is only read when the
  runtime executes the command.
* Collaborators that live outside `model/list.go` (the entry provider, the
  path helpers of the standard library, the layout engine, the operating
  system) are the fields of `Env`.
* Side effects `Update` performs inline (clipboard write, process spawn) are
  returned as a list of `Effect`s.
* Times are integers in nanoseconds.  `clickDelay` is the number of
  nanoseconds that the source writes as the `float64` number of seconds
  `0.5`; the test `now.Sub(last).Seconds() < clickDelay` is
  `now - last < clickDelay` on these integers.
-/

namespace Fman

/-- The fields of `entry.Entry` that `model/list.go` reads. -/
structure Entry where
  Name : String
  IsDir : Bool
  SymLinkPath : String
  SymlinkName : String
  Size : String
  ModifyTime : String
  deriving DecidableEq, Repr

/-- The Go zero value `entry.Entry{}`. -/
def Entry.zero : Entry :=
  { Name := "", IsDir := false, SymLinkPath := "", SymlinkName := "", Size := "", ModifyTime := "" }

/-- The layout box held by the list: only the dimensions pushed into it. -/
structure FlexBox where
  width : Int
  height : Int
  deriving DecidableEq, Repr

/-- The Go struct `ListModel` (the theme pointer carries no behaviour and is left out). -/
structure ListModel where
  entries : List Entry
  showHidden : Bool
  path : String
  Width : Int
  Height : Int
  selected_index : Int
  flexBox : FlexBox
  maxEntryToShow : Int
  truncateLimit : Int
  initialized : Bool
  lastClickedTime : Int
  clickDelay : Int
  lastKeyCharacter : Char
  deriving DecidableEq, Repr

/-- Messages delivered to `Update`.  `key` carries `msg.String()`.  `mouse`
carries what the branch reads: whether the button is `tea.MouseLeft`, whether
the zone named "list" contains the event, the zone-local row `y`, and the
clock reading `time.Now()` taken while the click is handled.  `entry` and
`newMessage` are the messages the list sends to its siblings; `other` is any
message type `Update` has no case for. -/
inductive Msg where
  | path (Path : String)
  | updateEntries (parent : Bool)
  | clearKey
  | key (s : String)
  | windowSize (width height : Int)
  | mouse (isLeft inBounds : Bool) (y : Int) (now : Int)
  | entry (e : Entry)
  | newMessage (s : String)
  | other
  deriving DecidableEq, Repr

/-- Commands returned by `Update`.
* `nil`: the Go `nil` command.
* `emit m`: a closure returning the already computed message `m`.
* `selectedEntry l`: the closure `func() tea.Msg { return entry.EntryMsg{Entry: list.SelectedEntry()} }`
  closing over the returned copy `l` of the list.
* `tick m`: `tea.Tick(time.Second, ...)` delivering `m` after one second.
* `batch a b`: `tea.Batch(a, b)`. -/
inductive Cmd where
  | nil
  | emit (m : Msg)
  | selectedEntry (l : ListModel)
  | tick (m : Msg)
  | batch (a b : Cmd)
  deriving DecidableEq, Repr

/-- Side effects performed inside `Update`. -/
inductive Effect where
  | clipboardWrite (s : String)
  | runCommand (name arg : String)
  deriving DecidableEq, Repr

/-- What one call of `Update` produces. -/
structure UpdateResult where
  list : ListModel
  cmd : Cmd
  effects : List Effect
  deriving DecidableEq, Repr

/-- Collaborators outside `model/list.go`.
* `GetEntries path showHidden` is `entry.GetEntries`: the listing and the error (`none` is Go `nil`).
* `Abs` is `filepath.Abs`, `Join` is `filepath.Join` on two elements, `Dir` is `filepath.Dir`.
* `UserHomeDir` is the directory returned by `os.UserHomeDir` (its error is dropped by the source).
* `GOOS` is `runtime.GOOS`.
* `nameColumnWidth w h` is `flexBox.Row(0).Cell(0).GetWidth()` after the box of
  size `w` by `h` has been recalculated. -/
structure Env where
  GetEntries : String → Bool → List Entry × Option String
  Abs : String → String × Option String
  Join : String → String → String
  Dir : String → String
  UserHomeDir : String
  GOOS : String
  nameColumnWidth : Int → Int → Int

/-- The value a Go `int` (64 bits, two's complement) holds after an
arithmetic operation whose exact result is `x`. -/
def wrapInt64 (x : Int) : Int :=
  (x + 9223372036854775808) % 18446744073709551616 - 9223372036854775808

def max (a b : Int) : Int := if a > b then a else b

def min (a b : Int) : Int := if a < b then a else b

def detectOpenCommand (env : Env) : String :=
  if env.GOOS = "linux" then "xdg-open"
  else if env.GOOS = "darwin" then "open"
  else "start"

def changePath (path : String) : Cmd := Cmd.emit (Msg.path path)

def updateEntry (newEntry : Entry) : Cmd := Cmd.emit (Msg.entry newEntry)

def sendMessage (message : String) : Cmd := Cmd.emit (Msg.newMessage message)

/-- The constructor `NewListModel`; `none` is its `panic(err)`. -/
def NewListModel (env : Env) : Option ListModel :=
  match env.Abs "." with
  | (_, some _) => none
  | (path, none) =>
    match env.GetEntries path false with
    | (_, some _) => none
    | (entries, none) =>
      some
        { entries := entries, showHidden := false, path := path, Width := 0, Height := 0,
          selected_index := 0, flexBox := { width := 0, height := 0 }, maxEntryToShow := 0,
          truncateLimit := 100, initialized := false, lastClickedTime := 0,
          clickDelay := 500000000, lastKeyCharacter := Char.ofNat 0 }

def clearLastKey : Cmd := Cmd.tick Msg.clearKey

def Init : Cmd := clearLastKey

/-- The method `SelectedEntry`; `none` is the index-out-of-range panic of `list.entries[list.selected_index]`. -/
def SelectedEntry (list : ListModel) : Option Entry :=
  if list.entries.length = 0 then some Entry.zero
  else if list.selected_index < 0 then none
  else list.entries[list.selected_index.toNat]?

def getEntriesAbove (env : Env) (list : ListModel) : Cmd :=
  changePath (env.Dir list.path)

/-- The method `getEntriesBelow`; every `list.SelectedEntry()` in it reads the same unchanged list. -/
def getEntriesBelow (env : Env) (list : ListModel) : Option Cmd :=
  match SelectedEntry list with
  | none => none
  | some e =>
    if !e.IsDir then some Cmd.nil
    else
      let path := env.Join list.path e.Name
      let path := if e.SymLinkPath ≠ "" then e.SymLinkPath else path
      some (changePath path)

def restrictIndex (list : ListModel) : ListModel :=
  if list.selected_index < 0 then
    { list with selected_index := (list.entries.length : Int) - 1 }
  else if list.selected_index ≥ (list.entries.length : Int) then
    { list with selected_index := 0 }
  else list

def getFullPath (env : Env) (entry : Entry) (path : String) : String :=
  let fullPath := env.Join path entry.Name
  if entry.SymLinkPath ≠ "" then entry.SymLinkPath else fullPath

/-- The code after the `switch` of `Update`: re-wrap the index and, on a list
that is not yet initialized, set the flag and return the two start-up commands. -/
def updateTail (list : ListModel) (effects : List Effect) : UpdateResult :=
  let list := restrictIndex list
  if !list.initialized then
    let list := { list with initialized := true }
    { list := list, cmd := Cmd.batch (Cmd.emit (Msg.path list.path)) (Cmd.selectedEntry list),
      effects := effects }
  else
    { list := list, cmd := Cmd.nil, effects := effects }

/-- The `tea.KeyMsg` case of `Update`. -/
def updateKey (env : Env) (k : String) (list : ListModel) : Option UpdateResult :=
  if k = "m" then
    let list := { list with showHidden := !list.showHidden }
    some { list := list, cmd := Cmd.emit (Msg.path list.path), effects := [] }
  else if k = "g" then
    let list := if list.lastKeyCharacter = 'g' then { list with selected_index := 0 } else list
    let list := { list with lastKeyCharacter := 'g' }
    some (updateTail list [])
  else if k = "G" then
    let list := { list with selected_index := (list.entries.length : Int) - 1 }
    some (updateTail list [])
  else if k = "~" ∨ k = "." then
    some { list := list, cmd := changePath env.UserHomeDir, effects := [] }
  else if k = "c" then
    match SelectedEntry list with
    | none => none
    | some e =>
      let path := getFullPath env e list.path
      some { list := list, cmd := Cmd.emit (Msg.newMessage "Copied!"),
             effects := [Effect.clipboardWrite path] }
  else if k = "w" ∨ k = "up" ∨ k = "k" then
    let list := restrictIndex { list with selected_index := list.selected_index - 1 }
    match SelectedEntry list with
    | none => none
    | some e => some { list := list, cmd := updateEntry e, effects := [] }
  else if k = "s" ∨ k = "down" ∨ k = "j" then
    let list := restrictIndex { list with selected_index := list.selected_index + 1 }
    match SelectedEntry list with
    | none => none
    | some e => some { list := list, cmd := updateEntry e, effects := [] }
  else if k = "a" ∨ k = "left" ∨ k = "h" then
    some { list := list, cmd := Cmd.emit (Msg.updateEntries true), effects := [] }
  else if k = "d" ∨ k = "right" ∨ k = "l" then
    some { list := list, cmd := Cmd.emit (Msg.updateEntries false), effects := [] }
  else if k = "enter" then
    match SelectedEntry list with
    | none => none
    | some e =>
      some (updateTail list [Effect.runCommand (detectOpenCommand env) (getFullPath env e list.path)])
  else
    some (updateTail list [])

/-- The `tea.MouseMsg` case of `Update`. -/
def updateMouse (env : Env) (isLeft inBounds : Bool) (y now : Int) (list : ListModel) :
    Option UpdateResult :=
  if !isLeft || !inBounds then
    some { list := list, cmd := Cmd.nil, effects := [] }
  else
    let offset : Int := 2
    if y < offset ∨ y > (list.entries.length : Int) + offset - 1 then
      some { list := list, cmd := Cmd.nil, effects := [] }
    else
      let list :=
        { list with selected_index := y + max 0 (list.selected_index - list.maxEntryToShow) - offset }
      let single : UpdateResult :=
        let list := { list with lastClickedTime := now }
        { list := list, cmd := Cmd.selectedEntry list, effects := [] }
      if now - list.lastClickedTime < list.clickDelay then
        match SelectedEntry list with
        | none => none
        | some e =>
          if e.IsDir then
            match getEntriesBelow env list with
            | none => none
            | some _ =>
              let list := restrictIndex list
              some { list := list, cmd := Cmd.emit (Msg.updateEntries false), effects := [] }
          else some single
      else some single

/-- The method `Update`.  `none` is a run-time panic inside the call. -/
def Update (env : Env) (msg : Msg) (list : ListModel) : Option UpdateResult :=
  match msg with
  | Msg.path p =>
    let list := { list with path := p }
    let (entries, err) := env.GetEntries list.path list.showHidden
    let list := restrictIndex { list with entries := entries }
    match err with
    | some e => some { list := list, cmd := sendMessage e, effects := [] }
    | none =>
      match SelectedEntry list with
      | none => none
      | some e => some { list := list, cmd := updateEntry e, effects := [] }
  | Msg.updateEntries parent =>
    if parent then
      some { list := list, cmd := getEntriesAbove env list, effects := [] }
    else
      match getEntriesBelow env list with
      | none => none
      | some c => some { list := list, cmd := c, effects := [] }
  | Msg.clearKey =>
    let list := { list with lastKeyCharacter := ' ' }
    some { list := list, cmd := clearLastKey, effects := [] }
  | Msg.key k => updateKey env k list
  | Msg.windowSize _ _ =>
    let list := { list with flexBox := { width := list.Width, height := list.Height } }
    let list :=
      { list with
          truncateLimit :=
            wrapInt64 (env.nameColumnWidth list.flexBox.width list.flexBox.height - 1) }
    let list := { list with maxEntryToShow := Int.tdiv (wrapInt64 (list.Height * 3)) 4 }
    some (updateTail list [])
  | Msg.mouse isLeft inBounds y now => updateMouse env isLeft inBounds y now list
  | _ => some (updateTail list [])

/-- Executing a command: the messages it delivers, `none` when the closure panics. -/
def Cmd.run : Cmd → Option (List Msg)
  | Cmd.nil => some []
  | Cmd.emit m => some [m]
  | Cmd.selectedEntry l =>
    match SelectedEntry l with
    | none => none
    | some e => some [Msg.entry e]
  | Cmd.tick m => some [m]
  | Cmd.batch a b =>
    match Cmd.run a, Cmd.run b with
    | some x, some y => some (x ++ y)
    | _, _ => none

/-- Feeding a sequence of messages to `Update`, each to the state returned for
the one before; `none` as soon as one call fails. -/
def runMsgs (env : Env) : List Msg → ListModel → Option ListModel
  | [], l => some l
  | m :: ms, l =>
    match Update env m l with
    | none => none
    | some r => runMsgs env ms r.list

/-- The local `startIndex` of `View`. -/
def startIndex (list : ListModel) : Int :=
  max 0 (list.selected_index - list.maxEntryToShow)

/-- The local `stopIndex` of `View`. -/
def stopIndex (list : ListModel) : Int :=
  min (list.entries.length : Int)
    (startIndex list + list.maxEntryToShow + Int.tdiv (list.Height * 1) 4)

/-! ## Rendering

Go strings are byte sequences: `len` counts bytes and `str[:n]` cuts at a byte
position, possibly inside a character. The text handled by `truncateText` and
handed to the styling library is therefore a list of bytes. -/

/-- The bytes of a string (its UTF-8 encoding), as Go stores it. -/
def goBytes (s : String) : List UInt8 := s.toUTF8.data.toList

/-- The function `truncateText`; `none` is the slice-bounds panic of `str[:max-3]`. -/
def truncateText (str : List UInt8) (max : Int) : Option (List UInt8) :=
  if (str.length : Int) > max then
    if max - 3 < 0 ∨ max - 3 > (str.length : Int) then none
    else some (str.take (max - 3).toNat ++ goBytes "...")
  else some str

def DIR_ICON : String := "📁"

def FILE_ICON : String := "📄"

def LINK_ICON : String := "🔗"

/-- Modelled from the spec: the method `IsSymLink` of `entry.Entry`, whose body
is in the `entry` package: "a predicate `is_symlink()` equivalent to
\"symlink_target is present\"". -/
def Entry.IsSymLink (e : Entry) : Bool := e.SymLinkPath ≠ ""

def assignListItemIcon (entry : Entry) : String :=
  if entry.IsSymLink then LINK_ICON
  else if entry.IsDir then DIR_ICON
  else FILE_ICON

/-- The three styles `View` starts a cell from: `theme.SelectedItemStyle`,
`theme.EvenItemStyle`, and the zero `lipgloss.Style` of `var style`. -/
inductive BaseStyle where
  | selectedItem
  | evenItem
  | zero
  deriving DecidableEq, Repr

/-- The theme colours `View` uses as foreground. -/
inductive Color where
  | SelectedItemFgColor
  | HiddenFileColor
  | HiddenFolderColor
  | FolderColor
  | TextColor
  deriving DecidableEq, Repr

/-- A `lipgloss.Style` as far as `View` builds it: the style it started from
and the attributes set on it (`none` is unset). -/
structure Style where
  base : BaseStyle
  width : Option Int
  bold : Option Bool
  underline : Option Bool
  foreground : Option Color
  deriving DecidableEq, Repr

def Style.ofBase (b : BaseStyle) : Style :=
  { base := b, width := none, bold := none, underline := none, foreground := none }

def Style.Width (s : Style) (w : Int) : Style := { s with width := some w }

def Style.Bold (s : Style) (b : Bool) : Style := { s with bold := some b }

def Style.Underline (s : Style) (b : Bool) : Style := { s with underline := some b }

def Style.UnsetBold (s : Style) : Style := { s with bold := none }

def Style.UnsetUnderline (s : Style) : Style := { s with underline := none }

def Style.Foreground (s : Style) (c : Color) : Style := { s with foreground := some c }

/-- The styling and layout libraries as `View` uses them.
* `boldRender` is `theme.BoldStyle.Render`.
* `cellWidth box i` is `flexBox.Row(0).Cell(i).GetWidth()` after `ForceRecalculate`.
* `styleRender` is `lipgloss.Style.Render`.
* `boxRender box contents` is `flexBox.Render()` once the cells hold `contents`. -/
structure Renderer where
  boldRender : String → String
  cellWidth : FlexBox → Nat → Int
  styleRender : Style → List UInt8 → String
  boxRender : FlexBox → List String → String

/-- The number of cells of the single row built by `NewListModel`. -/
def cellsLength : Nat := 3

/-- One pass of the inner loop of `View` for column `i`: the style the cell is
rendered with, starting from the style left by the previous column. `none` is
the index panic of `entry.Name[0]` on an empty name. -/
def cellStyle (rd : Renderer) (list : ListModel) (index : Int) (entry : Entry) (i : Nat)
    (style : Style) : Option Style :=
  let style :=
    if index = list.selected_index then Style.ofBase BaseStyle.selectedItem
    else if Int.tmod index 2 = 0 then Style.ofBase BaseStyle.evenItem
    else style
  let offset : Int := if i = 2 then 2 else 0
  let style := style.Width (rd.cellWidth list.flexBox i - offset)
  let style :=
    if i = 0 ∧ entry.SymlinkName ≠ "" then (style.Bold true).Underline true
    else style.UnsetBold.UnsetUnderline
  let colored : Option Style :=
    if index = list.selected_index then some (style.Foreground Color.SelectedItemFgColor)
    else
      match goBytes entry.Name with
      | [] => none
      | b :: _ =>
        if b = 46 then
          let style := style.Foreground Color.HiddenFileColor
          if entry.IsDir then some (style.Foreground Color.HiddenFolderColor) else some style
        else if entry.IsDir then some (style.Foreground Color.FolderColor)
        else some (style.Foreground Color.TextColor)
  match colored with
  | none => none
  | some style =>
    if i ≠ 0 ∧ index ≠ list.selected_index then some (style.Foreground Color.TextColor)
    else some style

/-- The inner loop of `View` over the columns `i, i+1, ...` of one row: the
rendered cells, each followed by a newline. -/
def renderCells (rd : Renderer) (list : ListModel) (index : Int) (entry : Entry) :
    Nat → List (List UInt8) → Style → Option (List String)
  | _, [], _ => some []
  | i, c :: cs, style =>
    match cellStyle rd list index entry i style with
    | none => none
    | some style =>
      match renderCells rd list index entry (i + 1) cs style with
      | none => none
      | some rest => some ((rd.styleRender style c ++ "\n") :: rest)

/-- The body of the outer loop of `View` for the row `index`. -/
def renderRow (rd : Renderer) (list : ListModel) (index : Int) : Option (List String) :=
  if index < 0 then none
  else
    match list.entries[index.toNat]? with
    | none => none
    | some entry =>
      match truncateText (goBytes entry.Name) list.truncateLimit with
      | none => none
      | some truncated =>
        let name := goBytes (assignListItemIcon entry) ++ goBytes " " ++ truncated
        renderCells rd list index entry 0
          [name, goBytes entry.Size, goBytes entry.ModifyTime] (Style.ofBase BaseStyle.zero)

/-- The outer loop of `View`: `n` rows from `index` on, appended column by column to `contents`. -/
def renderRows (rd : Renderer) (list : ListModel) : Int → Nat → List String → Option (List String)
  | _, 0, contents => some contents
  | index, n + 1, contents =>
    match renderRow rd list index with
    | none => none
    | some cells =>
      renderRows rd list (index + 1) n (List.zipWith (fun a b => a ++ b) contents cells)

/-- The method `View`; `none` is a run-time panic while rendering. The loop
`for index := startIndex; index < stopIndex; index++` runs
`stopIndex - startIndex` times when that is positive and not at all otherwise. -/
def View (rd : Renderer) (list : ListModel) : Option String :=
  if list.entries.length = 0 then some "Empty"
  else
    let contents : List String :=
      [rd.boldRender "Name" ++ "\n", rd.boldRender "Size" ++ "\n",
       rd.boldRender "Modify Time" ++ "\n"]
    match renderRows rd list (startIndex list) (stopIndex list - startIndex list).toNat contents with
    | none => none
    | some contents => some (rd.boxRender list.flexBox contents)

/-! ## Concrete data used to evaluate the definitions -/

/-- A plain file entry named `n`. -/
def fileEntry (n : String) : Entry :=
  { Name := n, IsDir := false, SymLinkPath := "", SymlinkName := "", Size := "1 kB", ModifyTime := "now" }

/-- A directory entry named `n`. -/
def dirEntry (n : String) : Entry :=
  { Name := n, IsDir := true, SymLinkPath := "", SymlinkName := "", Size := "4 kB", ModifyTime := "now" }

/-- A symbolic link named `n` pointing at `target`. -/
def linkEntry (n target : String) (isDir : Bool) : Entry :=
  { Name := n, IsDir := isDir, SymLinkPath := target, SymlinkName := n, Size := "0 B", ModifyTime := "now" }

/-- A provider that lists `es` for every path and never fails. -/
def envOf (es : List Entry) : Env :=
  { GetEntries := fun _ _ => (es, none),
    Abs := fun _ => ("/home/u", none),
    Join := fun a b => a ++ "/" ++ b,
    Dir := fun _ => "/",
    UserHomeDir := "/home/u",
    GOOS := "linux",
    nameColumnWidth := fun w _ => Int.tdiv (w * 5) 10 }

/-- A provider that fails on every path with the text `err`, returning the empty listing. -/
def envFailing (err : String) : Env :=
  { envOf [] with GetEntries := fun _ _ => ([], some err) }

/-- The list as `NewListModel` builds it, holding `es` with the cursor at `i`. -/
def listWith (es : List Entry) (i : Int) : ListModel :=
  { entries := es, showHidden := false, path := "/home/u", Width := 0, Height := 0,
    selected_index := i, flexBox := { width := 0, height := 0 }, maxEntryToShow := 0,
    truncateLimit := 100, initialized := false, lastClickedTime := 0,
    clickDelay := 500000000, lastKeyCharacter := Char.ofNat 0 }

/-- A renderer without styling that shows the ASCII bytes of a cell and puts
one column after the other. -/
def plainRenderer : Renderer :=
  { boldRender := fun t => t,
    cellWidth := fun box _ => Int.tdiv (box.width * 3) 10,
    styleRender := fun _ bytes =>
      String.mk ((bytes.filter (fun b => b < 128)).map (fun b => Char.ofNat b.toNat)),
    boxRender := fun _ contents => String.join contents }

/-- Twenty files in a window of height 20 with the cursor on the last one, so
that `View` renders the rows from index 4 on. -/
def scrolledList : ListModel :=
  { entries := List.replicate 20 (fileEntry "a"), showHidden := false, path := "/home/u",
    Width := 80, Height := 20, selected_index := 19, flexBox := { width := 80, height := 20 },
    maxEntryToShow := 15, truncateLimit := 39, initialized := true, lastClickedTime := 0,
    clickDelay := 500000000, lastKeyCharacter := Char.ofNat 0 }

/-- An environment whose layout gives the name column the width 3 whatever the window size. -/
def envNarrow : Env :=
  { GetEntries := fun _ _ => ([], none),
    Abs := fun _ => ("/home/u", none),
    Join := fun a b => a ++ "/" ++ b,
    Dir := fun _ => "/",
    UserHomeDir := "/home/u",
    GOOS := "linux",
    nameColumnWidth := fun _ _ => 3 }

/-- An environment whose layout gives the name column the width 0. -/
def envZeroWidth : Env :=
  { envNarrow with nameColumnWidth := fun _ _ => 0 }

def threeFiles : List Entry := [fileEntry "a", fileEntry "b", fileEntry "c"]

def twoFiles : List Entry := [fileEntry "a", fileEntry "b"]

/-- Invariant I1: the cursor of a non-empty listing lies inside the listing. -/
def I1 (list : ListModel) : Prop :=
  list.entries ≠ [] → 0 ≤ list.selected_index ∧ list.selected_index < (list.entries.length : Int)

instance (list : ListModel) : Decidable (I1 list) := by
  unfold I1; infer_instance

/-- The states reachable from the constructor by calls of `Update` that return. -/
inductive Reachable (env : Env) : ListModel → Prop where
  | fresh (l : ListModel) : NewListModel env = some l → Reachable env l
  | step (l : ListModel) (msg : Msg) (r : UpdateResult) :
      Reachable env l → Update env msg l = some r → Reachable env r.list

/-- The message is a left click inside the list zone on a row the bounds test of the mouse case lets through. -/
def acceptedClick (msg : Msg) (list : ListModel) : Prop :=
  ∃ y now, msg = Msg.mouse true true y now ∧ 2 ≤ y ∧ y ≤ (list.entries.length : Int) + 2 - 1

/-- Six plain files, so that index 5 exists. -/
def sixFiles : List Entry :=
  [fileEntry "a", fileEntry "b", fileEntry "c", fileEntry "d", fileEntry "e", fileEntry "f"]

/-- The keys whose case in `Update` ends with a `return`. -/
def earlyReturnKeys : List String :=
  ["m", "~", ".", "c", "w", "up", "k", "s", "down", "j", "a", "left", "h", "d", "right", "l"]

/-- The messages whose case in `Update` runs on into the code after the
`switch`: the window-resize message, the keys `g`, `G`, `enter` and every key
without a case, and the message types without a case. The path-change,
update-entries, clear-key and mouse cases and the keys of `earlyReturnKeys`
return before it. -/
def reachesTail : Msg → Prop
  | Msg.key k => k ∉ earlyReturnKeys
  | Msg.windowSize _ _ => True
  | Msg.entry _ => True
  | Msg.newMessage _ => True
  | Msg.other => True
  | _ => False

/-! ## Basic facts about `restrictIndex` and `SelectedEntry` -/

@[simp] theorem restrictIndex_entries (l : ListModel) : (restrictIndex l).entries = l.entries := by
  unfold restrictIndex; split_ifs <;> rfl

@[simp] theorem restrictIndex_path (l : ListModel) : (restrictIndex l).path = l.path := by
  unfold restrictIndex; split_ifs <;> rfl

@[simp] theorem restrictIndex_initialized (l : ListModel) :
    (restrictIndex l).initialized = l.initialized := by
  unfold restrictIndex; split_ifs <;> rfl

@[simp] theorem restrictIndex_lastKeyCharacter (l : ListModel) :
    (restrictIndex l).lastKeyCharacter = l.lastKeyCharacter := by
  unfold restrictIndex; split_ifs <;> rfl

@[simp] theorem restrictIndex_Height (l : ListModel) : (restrictIndex l).Height = l.Height := by
  unfold restrictIndex; split_ifs <;> rfl

@[simp] theorem restrictIndex_Width (l : ListModel) : (restrictIndex l).Width = l.Width := by
  unfold restrictIndex; split_ifs <;> rfl

@[simp] theorem restrictIndex_maxEntryToShow (l : ListModel) :
    (restrictIndex l).maxEntryToShow = l.maxEntryToShow := by
  unfold restrictIndex; split_ifs <;> rfl

/-- The value `restrictIndex` leaves in `selected_index`. -/
theorem restrictIndex_selected_index (l : ListModel) :
    (restrictIndex l).selected_index =
      if l.selected_index < 0 then (l.entries.length : Int) - 1
      else if l.selected_index ≥ (l.entries.length : Int) then 0
      else l.selected_index := by
  unfold restrictIndex; split_ifs <;> rfl

/-- On an index already inside the listing `restrictIndex` changes nothing. -/
theorem restrictIndex_of_inBounds (l : ListModel)
    (h : 0 ≤ l.selected_index ∧ l.selected_index < (l.entries.length : Int)) :
    restrictIndex l = l := by
  unfold restrictIndex
  rw [if_neg (by omega), if_neg (by omega)]

/-- After `restrictIndex` the cursor of a non-empty listing is inside it. -/
theorem restrictIndex_inBounds (l : ListModel) (h : l.entries ≠ []) :
    0 ≤ (restrictIndex l).selected_index ∧
      (restrictIndex l).selected_index < ((restrictIndex l).entries.length : Int) := by
  have hlen : 0 < l.entries.length := List.length_pos.mpr h
  rw [restrictIndex_selected_index, restrictIndex_entries]
  split_ifs <;> omega

/-- With the cursor inside the listing `SelectedEntry` returns the entry under it. -/
theorem SelectedEntry_of_inBounds (l : ListModel)
    (h : 0 ≤ l.selected_index ∧ l.selected_index < (l.entries.length : Int)) :
    ∃ e, SelectedEntry l = some e ∧ l.entries[l.selected_index.toNat]? = some e := by
  have hlt : l.selected_index.toNat < l.entries.length := by omega
  refine ⟨l.entries[l.selected_index.toNat], ?_, List.getElem?_eq_getElem hlt⟩
  unfold SelectedEntry
  rw [if_neg (by omega), if_neg (by omega)]
  exact List.getElem?_eq_getElem hlt

/-- On an empty listing `SelectedEntry` returns the zero entry. -/
theorem SelectedEntry_of_empty (l : ListModel) (h : l.entries = []) :
    SelectedEntry l = some Entry.zero := by
  unfold SelectedEntry
  simp [h]

/-- After `restrictIndex` the method `SelectedEntry` does not fail. -/
theorem SelectedEntry_restrictIndex (l : ListModel) :
    ∃ e, SelectedEntry (restrictIndex l) = some e := by
  by_cases h : l.entries = []
  · exact ⟨Entry.zero, SelectedEntry_of_empty _ (by simpa using h)⟩
  · obtain ⟨e, he, _⟩ := SelectedEntry_of_inBounds _ (restrictIndex_inBounds l h)
    exact ⟨e, he⟩

/-! ## Navigation keys -/

/-- The keys `w`, `up`, `k` all run the "select entry above" case. -/
theorem updateKey_up (env : Env) (k : String) (list : ListModel)
    (hk : k = "k" ∨ k = "w" ∨ k = "up") :
    Update env (Msg.key k) list =
      match SelectedEntry (restrictIndex { list with selected_index := list.selected_index - 1 }) with
      | none => none
      | some e =>
        some { list := restrictIndex { list with selected_index := list.selected_index - 1 },
               cmd := updateEntry e, effects := [] } := by
  rcases hk with h | h | h <;> subst h <;> simp [Update, updateKey]

/-- The keys `s`, `down`, `j` all run the "select entry below" case. -/
theorem updateKey_down (env : Env) (k : String) (list : ListModel)
    (hk : k = "j" ∨ k = "s" ∨ k = "down") :
    Update env (Msg.key k) list =
      match SelectedEntry (restrictIndex { list with selected_index := list.selected_index + 1 }) with
      | none => none
      | some e =>
        some { list := restrictIndex { list with selected_index := list.selected_index + 1 },
               cmd := updateEntry e, effects := [] } := by
  rcases hk with h | h | h <;> subst h <;> simp [Update, updateKey]

/-- The state and command of a navigation step whose index is `j` before re-wrapping. -/
theorem navigation_step (list : ListModel) (j : Int) (h : list.entries ≠ []) :
    ∃ e, SelectedEntry (restrictIndex { list with selected_index := j }) = some e ∧
      list.entries[(restrictIndex { list with selected_index := j }).selected_index.toNat]? = some e := by
  have hb := restrictIndex_inBounds { list with selected_index := j } h
  obtain ⟨e, he, hget⟩ := SelectedEntry_of_inBounds _ hb
  exact ⟨e, he, by simpa using hget⟩

/-- C2. Wrap-around navigation: on a non-empty listing with the cursor `i` in
bounds, `k`/`w`/`up` moves the cursor to `i - 1`, or to the last entry from
`0`; `j`/`s`/`down` moves it to `i + 1`, or to `0` from the last entry. The
listing is unchanged and the returned command delivers exactly one `EntryMsg`,
carrying the entry at the new cursor. -/
theorem C2_navigation_wraps (env : Env) (list : ListModel) (k : String)
    (hn : 1 ≤ list.entries.length)
    (hi : 0 ≤ list.selected_index ∧ list.selected_index < (list.entries.length : Int)) :
    ((k = "k" ∨ k = "w" ∨ k = "up") →
      ∃ r e, Update env (Msg.key k) list = some r ∧
        r.list.selected_index =
          (if list.selected_index > 0 then list.selected_index - 1
           else (list.entries.length : Int) - 1) ∧
        r.list.entries = list.entries ∧
        r.list.entries[r.list.selected_index.toNat]? = some e ∧
        r.cmd.run = some [Msg.entry e]) ∧
    ((k = "j" ∨ k = "s" ∨ k = "down") →
      ∃ r e, Update env (Msg.key k) list = some r ∧
        r.list.selected_index =
          (if list.selected_index < (list.entries.length : Int) - 1 then list.selected_index + 1
           else 0) ∧
        r.list.entries = list.entries ∧
        r.list.entries[r.list.selected_index.toNat]? = some e ∧
        r.cmd.run = some [Msg.entry e]) := by
  have hne : list.entries ≠ [] := by
    intro h; rw [h] at hn; simp at hn
  constructor
  · intro hk
    obtain ⟨e, he, hget⟩ := navigation_step list (list.selected_index - 1) hne
    refine ⟨{ list := restrictIndex { list with selected_index := list.selected_index - 1 },
              cmd := updateEntry e, effects := [] }, e, ?_, ?_, ?_, ?_, ?_⟩
    · rw [updateKey_up env k list hk, he]
    · simp only [restrictIndex_selected_index]
      split_ifs <;> omega
    · simp
    · simpa using hget
    · simp [updateEntry, Cmd.run]
  · intro hk
    obtain ⟨e, he, hget⟩ := navigation_step list (list.selected_index + 1) hne
    refine ⟨{ list := restrictIndex { list with selected_index := list.selected_index + 1 },
              cmd := updateEntry e, effects := [] }, e, ?_, ?_, ?_, ?_, ?_⟩
    · rw [updateKey_down env k list hk, he]
    · simp only [restrictIndex_selected_index]
      split_ifs <;> omega
    · simp
    · simpa using hget
    · simp [updateEntry, Cmd.run]

/-- C2 at the listing of three files with the cursor at `0`: key `k` is handled under both hypotheses. -/
theorem C2_navigation_wraps_witness :
    1 ≤ (listWith threeFiles 0).entries.length ∧
    (0 ≤ (listWith threeFiles 0).selected_index ∧
      (listWith threeFiles 0).selected_index < ((listWith threeFiles 0).entries.length : Int)) ∧
    (((("k" : String) = "k" ∨ ("k" : String) = "w" ∨ ("k" : String) = "up") →
      ∃ r e, Update (envOf threeFiles) (Msg.key "k") (listWith threeFiles 0) = some r ∧
        r.list.selected_index =
          (if (listWith threeFiles 0).selected_index > 0 then (listWith threeFiles 0).selected_index - 1
           else ((listWith threeFiles 0).entries.length : Int) - 1) ∧
        r.list.entries = (listWith threeFiles 0).entries ∧
        r.list.entries[r.list.selected_index.toNat]? = some e ∧
        r.cmd.run = some [Msg.entry e]) ∧
    ((("k" : String) = "j" ∨ ("k" : String) = "s" ∨ ("k" : String) = "down") →
      ∃ r e, Update (envOf threeFiles) (Msg.key "k") (listWith threeFiles 0) = some r ∧
        r.list.selected_index =
          (if (listWith threeFiles 0).selected_index < ((listWith threeFiles 0).entries.length : Int) - 1
           then (listWith threeFiles 0).selected_index + 1
           else 0) ∧
        r.list.entries = (listWith threeFiles 0).entries ∧
        r.list.entries[r.list.selected_index.toNat]? = some e ∧
        r.cmd.run = some [Msg.entry e])) :=
  ⟨by decide, by decide,
    C2_navigation_wraps (envOf threeFiles) (listWith threeFiles 0) "k" (by decide) (by decide)⟩

/-- The scenario of the specification: three entries, cursor `0`, key `k`:
the cursor moves to `2` and the command delivers the third entry. -/
theorem navigation_wrap_up_example :
    (Update (envOf threeFiles) (Msg.key "k") (listWith threeFiles 0)).map
        (fun r => (r.list.selected_index, r.cmd.run)) =
      some (2, some [Msg.entry (fileEntry "c")]) := by
  decide

/-! ## Invariant I1 -/

/-- The state returned by the tail of `Update`: the re-wrapped list with the flag set. -/
theorem updateTail_list (l : ListModel) (effects : List Effect) :
    (updateTail l effects).list = { restrictIndex l with initialized := true } := by
  simp only [updateTail]
  split_ifs with h
  · rfl
  · have h2 : (restrictIndex l).initialized = true := by simpa using h
    rw [← h2]

/-- The tail of `Update` establishes I1. -/
theorem updateTail_I1 (l : ListModel) (effects : List Effect) : I1 (updateTail l effects).list := by
  rw [updateTail_list]
  intro h
  exact restrictIndex_inBounds l (by simpa using h)

/-- A state whose cursor has just been re-wrapped satisfies I1. -/
theorem restrictIndex_I1 (l : ListModel) : I1 (restrictIndex l) := by
  intro h
  exact restrictIndex_inBounds l (by simpa using h)

/-- Every key message preserves I1. -/
theorem updateKey_I1 (env : Env) (k : String) (l : ListModel) (r : UpdateResult)
    (hI : I1 l) (h : updateKey env k l = some r) : I1 r.list := by
  unfold updateKey at h
  split at h
  · rw [← Option.some.inj h]; exact hI
  split at h
  · rw [← Option.some.inj h]; exact updateTail_I1 _ _
  split at h
  · rw [← Option.some.inj h]; exact updateTail_I1 _ _
  split at h
  · rw [← Option.some.inj h]; exact hI
  split at h
  · split at h
    · cases h
    · rw [← Option.some.inj h]; exact hI
  split at h
  · dsimp only at h
    split at h
    · cases h
    · rw [← Option.some.inj h]; exact restrictIndex_I1 _
  split at h
  · dsimp only at h
    split at h
    · cases h
    · rw [← Option.some.inj h]; exact restrictIndex_I1 _
  split at h
  · rw [← Option.some.inj h]; exact hI
  split at h
  · rw [← Option.some.inj h]; exact hI
  split at h
  · split at h
    · cases h
    · rw [← Option.some.inj h]; exact updateTail_I1 _ _
  · rw [← Option.some.inj h]; exact updateTail_I1 _ _

/-- Every message other than an accepted left click preserves I1: the
path-change, update-entries, clear-key, key and window-resize cases, rejected
mouse events and unhandled messages. -/
theorem Update_I1_of_not_click (env : Env) (msg : Msg) (l : ListModel) (r : UpdateResult)
    (hmsg : ¬ acceptedClick msg l) (hI : I1 l) (h : Update env msg l = some r) : I1 r.list := by
  cases msg with
  | path p =>
    simp only [Update] at h
    split at h
    · rw [← Option.some.inj h]; exact restrictIndex_I1 _
    · split at h
      · cases h
      · rw [← Option.some.inj h]; exact restrictIndex_I1 _
  | updateEntries parent =>
    simp only [Update] at h
    split_ifs at h
    · rw [← Option.some.inj h]; exact hI
    · split at h
      · cases h
      · rw [← Option.some.inj h]; exact hI
  | clearKey =>
    simp only [Update] at h
    rw [← Option.some.inj h]; exact hI
  | key k => exact updateKey_I1 env k l r hI h
  | windowSize w hgt =>
    simp only [Update] at h
    rw [← Option.some.inj h]; exact updateTail_I1 _ _
  | mouse isLeft inBounds y now =>
    simp only [Update, updateMouse] at h
    split_ifs at h with h1 h2
    · rw [← Option.some.inj h]; exact hI
    · rw [← Option.some.inj h]; exact hI
    · exfalso
      apply hmsg
      refine ⟨y, now, ?_, by omega, by omega⟩
      cases isLeft <;> cases inBounds <;> simp at h1 ⊢
    · exfalso
      apply hmsg
      refine ⟨y, now, ?_, by omega, by omega⟩
      cases isLeft <;> cases inBounds <;> simp at h1 ⊢
  | entry e =>
    simp only [Update] at h
    rw [← Option.some.inj h]; exact updateTail_I1 _ _
  | newMessage m =>
    simp only [Update] at h
    rw [← Option.some.inj h]; exact updateTail_I1 _ _
  | other =>
    simp only [Update] at h
    rw [← Option.some.inj h]; exact updateTail_I1 _ _

/-- The list after the constructor on a directory of two files, then key `j`. -/
theorem twoFiles_after_j :
    NewListModel (envOf twoFiles) = some (listWith twoFiles 0) ∧
    (Update (envOf twoFiles) (Msg.key "j") (listWith twoFiles 0)).map (fun r => r.list) =
      some (listWith twoFiles 1) := by
  decide

/-- C1. A left click that the mouse case accepts can leave the cursor outside
the listing. The constructor on a directory of two files, key `j`, then a
left click on zone row 3 one second later reaches a state with two entries
and `selected_index = 2`; the command returned with it fails when run. -/
theorem C1_accepted_click_breaks_I1 :
    ∃ r, Update (envOf twoFiles) (Msg.mouse true true 3 1000000000) (listWith twoFiles 1) = some r ∧
      Reachable (envOf twoFiles) r.list ∧
      r.list.entries = twoFiles ∧ r.list.selected_index = 2 ∧
      ¬ I1 r.list ∧ r.cmd.run = none := by
  have hfresh : Reachable (envOf twoFiles) (listWith twoFiles 0) :=
    Reachable.fresh _ (by decide)
  have hj : Reachable (envOf twoFiles) (listWith twoFiles 1) :=
    Reachable.step (listWith twoFiles 0) (Msg.key "j")
      { list := listWith twoFiles 1, cmd := updateEntry (fileEntry "b"), effects := [] }
      hfresh (by decide)
  refine ⟨{ list := { listWith twoFiles 2 with lastClickedTime := 1000000000 },
            cmd := Cmd.selectedEntry { listWith twoFiles 2 with lastClickedTime := 1000000000 },
            effects := [] }, by decide, ?_, by decide, by decide, by decide, by decide⟩
  exact Reachable.step (listWith twoFiles 1) (Msg.mouse true true 3 1000000000) _ hj (by decide)

/-- A second click within the delay on the same row makes `Update` itself fail
on that state: the double-click test reads `SelectedEntry` at the
out-of-range index. -/
theorem click_then_double_click_fails :
    Update (envOf twoFiles) (Msg.mouse true true 3 1000000000) (listWith twoFiles 1) ≠ none ∧
    Update (envOf twoFiles) (Msg.mouse true true 3 1000000100)
      { listWith twoFiles 2 with lastClickedTime := 1000000000 } = none := by
  decide

/-- A click below the last rendered row of a scrolled list: twenty entries in a
window of height twenty, cursor on the last entry, so `View` starts at index 4.
Zone row 19 passes the bounds test and the cursor becomes 21. -/
theorem click_below_last_row_example :
    (Update (envOf [])
        (Msg.mouse true true 19 1000000000)
        { listWith (List.replicate 20 (fileEntry "a")) 19 with
            Height := 20, maxEntryToShow := 15, initialized := true }).map
      (fun r => (r.list.entries.length, r.list.selected_index, r.cmd.run)) =
      some (20, 21, none) := by
  decide

/-! ## Path-change message -/

/-- The path-change case when the provider reports an error. -/
theorem Update_path_error (env : Env) (list : ListModel) (p : String) (es : List Entry)
    (err : String) (h : env.GetEntries p list.showHidden = (es, some err)) :
    Update env (Msg.path p) list =
      some { list := restrictIndex { list with path := p, entries := es },
             cmd := sendMessage err, effects := [] } := by
  simp only [Update, h]

/-- The path-change case when the provider succeeds. -/
theorem Update_path_ok (env : Env) (list : ListModel) (p : String) (es : List Entry)
    (h : env.GetEntries p list.showHidden = (es, none)) :
    Update env (Msg.path p) list =
      match SelectedEntry (restrictIndex { list with path := p, entries := es }) with
      | none => none
      | some e =>
        some { list := restrictIndex { list with path := p, entries := es },
               cmd := updateEntry e, effects := [] } := by
  simp only [Update, h]

/-- C3 as stated fails: with two entries and the cursor at 1, a path change
whose provider call fails (returning the empty listing with its error) leaves
a state whose entries and cursor both differ from the ones before. -/
theorem C3_failure_replaces_listing :
    ∃ r, Update (envFailing "permission denied") (Msg.path "/root") (listWith twoFiles 1) = some r ∧
      r.list.entries ≠ (listWith twoFiles 1).entries ∧
      r.list.selected_index ≠ (listWith twoFiles 1).selected_index ∧
      r.cmd.run = some [Msg.newMessage "permission denied"] :=
  ⟨{ list := { listWith [] 0 with path := "/root" }, cmd := sendMessage "permission denied",
     effects := [] }, by decide, by decide, by decide, by decide⟩

/-- C3, amended. When the provider returns the listing `es` together with an
error, `Update` on `PathMsg{p}` stores `p` as the path and `es` as the entries
(the previous listing is not kept), re-wraps the cursor against `es`, runs no
inline effect, and returns a command delivering exactly one `NewMessageMsg`
with the provider's error text. -/
theorem C3_path_failure (env : Env) (list : ListModel) (p : String) (es : List Entry)
    (err : String) (h : env.GetEntries p list.showHidden = (es, some err)) :
    ∃ r, Update env (Msg.path p) list = some r ∧
      r.list.path = p ∧ r.list.entries = es ∧
      r.list.selected_index =
        (if list.selected_index < 0 then (es.length : Int) - 1
         else if list.selected_index ≥ (es.length : Int) then 0
         else list.selected_index) ∧
      r.effects = [] ∧
      r.cmd.run = some [Msg.newMessage err] := by
  refine ⟨_, Update_path_error env list p es err h, ?_, ?_, ?_, rfl, ?_⟩
  · simp
  · simp
  · simp only [restrictIndex_selected_index]
  · simp [sendMessage, Cmd.run]

/-- C3, amended, at a failing provider and a list of two files. -/
theorem C3_path_failure_witness :
    (envFailing "permission denied").GetEntries "/root" (listWith twoFiles 1).showHidden =
        ([], some "permission denied") ∧
    ∃ r, Update (envFailing "permission denied") (Msg.path "/root") (listWith twoFiles 1) = some r ∧
      r.list.path = "/root" ∧ r.list.entries = [] ∧
      r.list.selected_index =
        (if (listWith twoFiles 1).selected_index < 0 then (([] : List Entry).length : Int) - 1
         else if (listWith twoFiles 1).selected_index ≥ (([] : List Entry).length : Int) then 0
         else (listWith twoFiles 1).selected_index) ∧
      r.effects = [] ∧
      r.cmd.run = some [Msg.newMessage "permission denied"] :=
  ⟨rfl, C3_path_failure (envFailing "permission denied") (listWith twoFiles 1) "/root" []
    "permission denied" rfl⟩

/-- C4. Successful path change: when the provider returns a non-empty listing
`es` without error, `Update` on `PathMsg{p}` returns a state with `path = p`,
`entries = es` and the cursor kept if it was inside `es`, moved to the last
entry if it was negative and to `0` if it was past the end, whatever integer
it held before; the command delivers exactly one `EntryMsg`, carrying the
entry of `es` at the new cursor. -/
theorem C4_path_success (env : Env) (list : ListModel) (p : String) (es : List Entry)
    (h : env.GetEntries p list.showHidden = (es, none)) (hne : es ≠ []) :
    ∃ r e, Update env (Msg.path p) list = some r ∧
      r.list.path = p ∧ r.list.entries = es ∧
      r.list.selected_index =
        (if 0 ≤ list.selected_index ∧ list.selected_index < (es.length : Int) then list.selected_index
         else if list.selected_index < 0 then (es.length : Int) - 1
         else 0) ∧
      es[r.list.selected_index.toNat]? = some e ∧
      r.cmd.run = some [Msg.entry e] := by
  have hb := restrictIndex_inBounds { list with path := p, entries := es } hne
  obtain ⟨e, he, hget⟩ := SelectedEntry_of_inBounds _ hb
  refine ⟨{ list := restrictIndex { list with path := p, entries := es },
            cmd := updateEntry e, effects := [] }, e, ?_, ?_, ?_, ?_, ?_, ?_⟩
  · rw [Update_path_ok env list p es h, he]
  · simp
  · simp
  · simp only [restrictIndex_selected_index]
    split_ifs <;> omega
  · simpa using hget
  · simp [updateEntry, Cmd.run]

/-- C4 at a provider listing three files and a list whose cursor is `-1`: the cursor lands on the last entry. -/
theorem C4_path_success_witness :
    (envOf threeFiles).GetEntries "/srv" (listWith twoFiles (-1)).showHidden = (threeFiles, none) ∧
    threeFiles ≠ [] ∧
    ∃ r e, Update (envOf threeFiles) (Msg.path "/srv") (listWith twoFiles (-1)) = some r ∧
      r.list.path = "/srv" ∧ r.list.entries = threeFiles ∧
      r.list.selected_index =
        (if 0 ≤ (listWith twoFiles (-1)).selected_index ∧
              (listWith twoFiles (-1)).selected_index < (threeFiles.length : Int)
         then (listWith twoFiles (-1)).selected_index
         else if (listWith twoFiles (-1)).selected_index < 0 then (threeFiles.length : Int) - 1
         else 0) ∧
      threeFiles[r.list.selected_index.toNat]? = some e ∧
      r.cmd.run = some [Msg.entry e] :=
  ⟨rfl, by decide, C4_path_success (envOf threeFiles) (listWith twoFiles (-1)) "/srv" threeFiles rfl
    (by decide)⟩

/-- The three cursor cases of a successful path change, evaluated. -/
theorem path_success_examples :
    (Update (envOf threeFiles) (Msg.path "/srv") (listWith twoFiles 1)).map
        (fun r => (r.list.selected_index, r.cmd.run)) = some (1, some [Msg.entry (fileEntry "b")]) ∧
    (Update (envOf threeFiles) (Msg.path "/srv") (listWith twoFiles (-4))).map
        (fun r => (r.list.selected_index, r.cmd.run)) = some (2, some [Msg.entry (fileEntry "c")]) ∧
    (Update (envOf threeFiles) (Msg.path "/srv") (listWith twoFiles 7)).map
        (fun r => (r.list.selected_index, r.cmd.run)) = some (0, some [Msg.entry (fileEntry "a")]) := by
  decide

/-! ## The key buffer and the `gg` sequence -/

/-- The `g` case of `Update`. -/
theorem Update_key_g (env : Env) (l : ListModel) :
    Update env (Msg.key "g") l =
      some (updateTail
        { (if l.lastKeyCharacter = 'g' then { l with selected_index := 0 } else l) with
            lastKeyCharacter := 'g' } []) := by
  simp [Update, updateKey]

/-- The clear-key case of `Update`. -/
theorem Update_clearKey (env : Env) (l : ListModel) :
    Update env Msg.clearKey l =
      some { list := { l with lastKeyCharacter := ' ' }, cmd := clearLastKey, effects := [] } := by
  simp [Update]

/-- A `g` pressed while the buffer holds `g` puts the cursor at `0`. -/
theorem Update_key_g_jump (env : Env) (l : ListModel) (h : l.lastKeyCharacter = 'g') :
    ∃ r, Update env (Msg.key "g") l = some r ∧ r.list.selected_index = 0 ∧
      r.list.lastKeyCharacter = 'g' := by
  refine ⟨_, Update_key_g env l, ?_, ?_⟩
  · rw [updateTail_list, if_pos h]
    simp only [restrictIndex_selected_index]
    split_ifs <;> omega
  · rw [updateTail_list]; simp

/-- A `g` pressed while the buffer holds another byte only re-wraps the cursor and stores `g`. -/
theorem Update_key_g_first (env : Env) (l : ListModel) (h : l.lastKeyCharacter ≠ 'g') :
    ∃ r, Update env (Msg.key "g") l = some r ∧
      r.list.selected_index = (restrictIndex l).selected_index ∧
      r.list.entries = l.entries ∧
      r.list.lastKeyCharacter = 'g' := by
  refine ⟨_, Update_key_g env l, ?_, ?_, ?_⟩
  · rw [updateTail_list, if_neg h]
    simp only [restrictIndex_selected_index]
  · rw [updateTail_list, if_neg h]; simp
  · rw [updateTail_list]; simp

/-- After the tail of `Update` the method `SelectedEntry` does not fail. -/
theorem SelectedEntry_updateTail (l : ListModel) (effects : List Effect) :
    ∃ e, SelectedEntry (updateTail l effects).list = some e := by
  by_cases h : l.entries = []
  · exact ⟨Entry.zero, SelectedEntry_of_empty _ (by rw [updateTail_list]; simpa using h)⟩
  · have hI := updateTail_I1 l effects (by rw [updateTail_list]; simpa using h)
    obtain ⟨e, he, _⟩ := SelectedEntry_of_inBounds _ hI
    exact ⟨e, he⟩

/-- A key other than `g`, pressed on a list whose selection can be read,
returns and leaves the key buffer as it was. -/
theorem updateKey_keeps_lastKey (env : Env) (k : String) (l : ListModel) (e : Entry)
    (hk : k ≠ "g") (he : SelectedEntry l = some e) :
    ∃ r, updateKey env k l = some r ∧ r.list.lastKeyCharacter = l.lastKeyCharacter := by
  unfold updateKey
  split
  · exact ⟨_, rfl, rfl⟩
  split
  · exact ⟨_, rfl, by rw [updateTail_list]; simp⟩
  split
  · exact ⟨_, rfl, rfl⟩
  split
  · rw [he]; exact ⟨_, rfl, rfl⟩
  split
  · obtain ⟨e2, he2⟩ := SelectedEntry_restrictIndex { l with selected_index := l.selected_index - 1 }
    dsimp only
    rw [he2]
    exact ⟨_, rfl, by simp⟩
  split
  · obtain ⟨e2, he2⟩ := SelectedEntry_restrictIndex { l with selected_index := l.selected_index + 1 }
    dsimp only
    rw [he2]
    exact ⟨_, rfl, by simp⟩
  split
  · exact ⟨_, rfl, rfl⟩
  split
  · exact ⟨_, rfl, rfl⟩
  split
  · rw [he]; exact ⟨_, rfl, by rw [updateTail_list]; simp⟩
  · exact ⟨_, rfl, by rw [updateTail_list]; simp⟩

/-- C5 as stated fails: with three entries and the cursor at 2, the keys `g`,
`x`, `g` (no clear-key in between) end with the cursor at 0, although the key
before the final `g` was `x`; before that final `g` the cursor was still 2. -/
theorem C5_g_x_g_jumps :
    (runMsgs (envOf threeFiles) [Msg.key "g", Msg.key "x"] (listWith threeFiles 2)).map
        (fun l => l.selected_index) = some 2 ∧
    (runMsgs (envOf threeFiles) [Msg.key "g", Msg.key "x", Msg.key "g"] (listWith threeFiles 2)).map
        (fun l => l.selected_index) = some 0 := by
  decide

/-- C5, amended. For every state and every key `x` other than `g`, with no
clear-key message in between, the three calls of `Update` for `g`, `x`, `g`
all return, the buffer `lastKeyCharacter` still holds `g` after `x` (the key
`x` does not overwrite it), and the final `g` returns the cursor `0`. So a
`g` can put the cursor at `0` although the key before it was not `g`. -/
theorem C5_g_other_g (env : Env) (l : ListModel) (x : String) (hx : x ≠ "g") :
    ∃ r1 r2 r3, Update env (Msg.key "g") l = some r1 ∧
      Update env (Msg.key x) r1.list = some r2 ∧
      Update env (Msg.key "g") r2.list = some r3 ∧
      r2.list.lastKeyCharacter = 'g' ∧
      r3.list.selected_index = 0 := by
  obtain ⟨e, he⟩ := SelectedEntry_updateTail
    { (if l.lastKeyCharacter = 'g' then { l with selected_index := 0 } else l) with
        lastKeyCharacter := 'g' } []
  obtain ⟨r2, h2, hkey⟩ := updateKey_keeps_lastKey env x _ e hx he
  have hg : r2.list.lastKeyCharacter = 'g' := by
    rw [hkey, updateTail_list]; simp
  obtain ⟨r3, h3, hsel, _⟩ := Update_key_g_jump env r2.list hg
  exact ⟨_, r2, r3, Update_key_g env l, h2, h3, hg, hsel⟩

/-- C5, amended, at the key `x` on a list of three files with the cursor at 2. -/
theorem C5_g_other_g_witness :
    ("x" : String) ≠ "g" ∧
    ∃ r1 r2 r3, Update (envOf threeFiles) (Msg.key "g") (listWith threeFiles 2) = some r1 ∧
      Update (envOf threeFiles) (Msg.key "x") r1.list = some r2 ∧
      Update (envOf threeFiles) (Msg.key "g") r2.list = some r3 ∧
      r2.list.lastKeyCharacter = 'g' ∧
      r3.list.selected_index = 0 :=
  ⟨by decide, C5_g_other_g (envOf threeFiles) (listWith threeFiles 2) "x" (by decide)⟩

/-- C6. The `gg` sequence: on a non-empty listing with the cursor in bounds and
a buffer other than `g`, (a) `g` leaves the cursor where it is and stores
`g`, and a second `g` directly after puts the cursor at `0`; (b) `g`, then
the clear-key message, then `g` leaves the cursor where it was. -/
theorem C6_gg_sequence (env : Env) (l : ListModel) (_hne : l.entries ≠ [])
    (hi : 0 ≤ l.selected_index ∧ l.selected_index < (l.entries.length : Int))
    (hkey : l.lastKeyCharacter ≠ 'g') :
    ∃ r1, Update env (Msg.key "g") l = some r1 ∧
      r1.list.selected_index = l.selected_index ∧ r1.list.lastKeyCharacter = 'g' ∧
      (∃ r2, Update env (Msg.key "g") r1.list = some r2 ∧ r2.list.selected_index = 0) ∧
      (∃ rc r3, Update env Msg.clearKey r1.list = some rc ∧
        Update env (Msg.key "g") rc.list = some r3 ∧
        r3.list.selected_index = l.selected_index) := by
  obtain ⟨r1, h1, hsel1, hent1, hkey1⟩ := Update_key_g_first env l hkey
  have hsel1' : r1.list.selected_index = l.selected_index := by
    rw [hsel1, restrictIndex_of_inBounds l hi]
  obtain ⟨r2, h2, hsel2, _⟩ := Update_key_g_jump env r1.list hkey1
  have hclr : ({ r1.list with lastKeyCharacter := ' ' } : ListModel).lastKeyCharacter ≠ 'g' := by
    show (' ' : Char) ≠ 'g'
    decide
  obtain ⟨r3, h3, hsel3, _, _⟩ := Update_key_g_first env { r1.list with lastKeyCharacter := ' ' } hclr
  refine ⟨r1, h1, hsel1', hkey1, ⟨r2, h2, hsel2⟩, ⟨_, r3, Update_clearKey env r1.list, h3, ?_⟩⟩
  rw [hsel3, restrictIndex_of_inBounds]
  · exact hsel1'
  · show 0 ≤ r1.list.selected_index ∧ r1.list.selected_index < (r1.list.entries.length : Int)
    rw [hsel1', hent1]
    exact hi

/-- C6 at six files with the cursor at 5 and the buffer as the constructor leaves it. -/
theorem C6_gg_sequence_witness :
    (listWith sixFiles 5).entries ≠ [] ∧
    (0 ≤ (listWith sixFiles 5).selected_index ∧
      (listWith sixFiles 5).selected_index < ((listWith sixFiles 5).entries.length : Int)) ∧
    (listWith sixFiles 5).lastKeyCharacter ≠ 'g' ∧
    ∃ r1, Update (envOf sixFiles) (Msg.key "g") (listWith sixFiles 5) = some r1 ∧
      r1.list.selected_index = (listWith sixFiles 5).selected_index ∧
      r1.list.lastKeyCharacter = 'g' ∧
      (∃ r2, Update (envOf sixFiles) (Msg.key "g") r1.list = some r2 ∧ r2.list.selected_index = 0) ∧
      (∃ rc r3, Update (envOf sixFiles) Msg.clearKey r1.list = some rc ∧
        Update (envOf sixFiles) (Msg.key "g") rc.list = some r3 ∧
        r3.list.selected_index = (listWith sixFiles 5).selected_index) :=
  ⟨by decide, by decide, by decide,
    C6_gg_sequence (envOf sixFiles) (listWith sixFiles 5) (by decide) (by decide) (by decide)⟩

/-- The scenario of the specification, evaluated from cursor 5: `g` keeps 5,
`g g` ends at 0, and `g`, clear-key, `g` ends at 5. -/
theorem gg_sequence_example :
    (runMsgs (envOf sixFiles) [Msg.key "g"] (listWith sixFiles 5)).map
        (fun l => (l.selected_index, l.lastKeyCharacter)) = some (5, 'g') ∧
    (runMsgs (envOf sixFiles) [Msg.key "g", Msg.key "g"] (listWith sixFiles 5)).map
        (fun l => l.selected_index) = some 0 ∧
    (runMsgs (envOf sixFiles) [Msg.key "g", Msg.clearKey, Msg.key "g"] (listWith sixFiles 5)).map
        (fun l => l.selected_index) = some 5 := by
  decide

/-! ## Start-up commands -/

/-- The tail of `Update` on a list that is not initialized. -/
theorem updateTail_bootstrap (l : ListModel) (effects : List Effect) (h : l.initialized = false) :
    updateTail l effects =
      { list := { restrictIndex l with initialized := true },
        cmd := Cmd.batch (Cmd.emit (Msg.path l.path))
          (Cmd.selectedEntry { restrictIndex l with initialized := true }),
        effects := effects } := by
  simp [updateTail, h]

/-- What the tail returns on a list that is not initialized: the flag is set
and the batch delivers the path and the selected entry. -/
theorem updateTail_bootstrap_run (l : ListModel) (effects : List Effect)
    (h : l.initialized = false) :
    (updateTail l effects).list.initialized = true ∧
    (updateTail l effects).list.path = l.path ∧
    (updateTail l effects).cmd =
      Cmd.batch (Cmd.emit (Msg.path (updateTail l effects).list.path))
        (Cmd.selectedEntry (updateTail l effects).list) ∧
    ∃ e, SelectedEntry (updateTail l effects).list = some e ∧
      (updateTail l effects).cmd.run = some [Msg.path l.path, Msg.entry e] := by
  obtain ⟨e, he⟩ := SelectedEntry_updateTail l effects
  rw [updateTail_bootstrap l effects h] at he ⊢
  refine ⟨rfl, by simp, by simp, e, he, ?_⟩
  simp only [Cmd.run]
  simp only at he
  rw [he]
  rfl

/-- A message that reaches the tail hands it a list with the same flag and path. -/
theorem Update_reachesTail (env : Env) (msg : Msg) (l : ListModel) (hmsg : reachesTail msg)
    (hsel : msg = Msg.key "enter" → SelectedEntry l ≠ none) :
    ∃ l2 effects, Update env msg l = some (updateTail l2 effects) ∧
      l2.initialized = l.initialized ∧ l2.path = l.path := by
  cases msg with
  | path p => exact absurd hmsg (by simp [reachesTail])
  | updateEntries parent => exact absurd hmsg (by simp [reachesTail])
  | clearKey => exact absurd hmsg (by simp [reachesTail])
  | mouse a b y now => exact absurd hmsg (by simp [reachesTail])
  | windowSize w h => exact ⟨_, _, rfl, rfl, rfl⟩
  | entry e => exact ⟨_, _, rfl, rfl, rfl⟩
  | newMessage m => exact ⟨_, _, rfl, rfl, rfl⟩
  | other => exact ⟨_, _, rfl, rfl, rfl⟩
  | key k =>
    simp only [reachesTail, earlyReturnKeys, List.mem_cons, List.mem_singleton, not_or,
      List.mem_nil_iff, or_false] at hmsg
    obtain ⟨h1, h2, h3, h4, h5, h6, h7, h8, h9, h10, h11, h12, h13, h14, h15, h16⟩ := hmsg
    simp only [Update, updateKey, h1, h2, h3, h4, h5, h6, h7, h8, h9, h10, h11, h12, h13, h14,
      h15, h16, if_false, or_self]
    by_cases hg : k = "g"
    · rw [if_pos hg]
      refine ⟨_, _, rfl, ?_, ?_⟩
      · split_ifs <;> rfl
      · split_ifs <;> rfl
    rw [if_neg hg]
    by_cases hG : k = "G"
    · rw [if_pos hG]
      exact ⟨_, _, rfl, rfl, rfl⟩
    rw [if_neg hG]
    by_cases he : k = "enter"
    · rw [if_pos he]
      have hs := hsel (by rw [he])
      cases hse : SelectedEntry l with
      | none => exact absurd hse hs
      | some e => exact ⟨_, _, rfl, rfl, rfl⟩
    · rw [if_neg he]
      exact ⟨_, _, rfl, rfl, rfl⟩

/-- A key with an early return leaves the flag as it is. -/
theorem updateKey_early_initialized (env : Env) (k : String) (l : ListModel) (r : UpdateResult)
    (hk : k ∈ earlyReturnKeys) (h : updateKey env k l = some r) :
    r.list.initialized = l.initialized := by
  unfold updateKey at h
  split at h
  · rw [← Option.some.inj h]
  split at h
  · rename_i hg; subst hg; exact absurd hk (by decide)
  split at h
  · rename_i hg; subst hg; exact absurd hk (by decide)
  split at h
  · rw [← Option.some.inj h]
  split at h
  · split at h
    · cases h
    · rw [← Option.some.inj h]
  split at h
  · dsimp only at h
    split at h
    · cases h
    · rw [← Option.some.inj h]; simp
  split at h
  · dsimp only at h
    split at h
    · cases h
    · rw [← Option.some.inj h]; simp
  split at h
  · rw [← Option.some.inj h]
  split at h
  · rw [← Option.some.inj h]
  split at h
  · rename_i hg; subst hg; exact absurd hk (by decide)
  · rename_i h1 _ _ h4 h5 h6 h7 h8 h9 _
    simp only [earlyReturnKeys, List.mem_cons, List.mem_singleton, List.mem_nil_iff,
      or_false] at hk
    tauto

/-- A message whose case returns early leaves the flag as it is. -/
theorem Update_early_initialized (env : Env) (msg : Msg) (l : ListModel) (r : UpdateResult)
    (hmsg : ¬ reachesTail msg) (h : Update env msg l = some r) :
    r.list.initialized = l.initialized := by
  cases msg with
  | path p =>
    simp only [Update] at h
    split at h
    · rw [← Option.some.inj h]; simp
    · split at h
      · cases h
      · rw [← Option.some.inj h]; simp
  | updateEntries parent =>
    simp only [Update] at h
    split_ifs at h
    · rw [← Option.some.inj h]
    · split at h
      · cases h
      · rw [← Option.some.inj h]
  | clearKey =>
    simp only [Update] at h
    rw [← Option.some.inj h]
  | key k =>
    exact updateKey_early_initialized env k l r (by simpa [reachesTail] using hmsg) h
  | windowSize w hgt => exact absurd trivial hmsg
  | mouse isLeft inBounds y now =>
    simp only [Update, updateMouse] at h
    split_ifs at h
    · rw [← Option.some.inj h]
    · rw [← Option.some.inj h]
    · split at h
      · cases h
      · split_ifs at h
        · split at h
          · cases h
          · rw [← Option.some.inj h]; simp
        · rw [← Option.some.inj h]
    · rw [← Option.some.inj h]
  | entry e => exact absurd trivial hmsg
  | newMessage m => exact absurd trivial hmsg
  | other => exact absurd trivial hmsg

/-- C7 as stated fails: on the list as constructed (flag unset) the clear-key
message returns a state whose flag is still unset and only the timer command;
a path change and the key `j` likewise leave the flag unset and return a
single `EntryMsg`. -/
theorem C7_early_return_skips_bootstrap :
    (listWith threeFiles 0).initialized = false ∧
    (Update (envOf threeFiles) Msg.clearKey (listWith threeFiles 0)).map
        (fun r => (r.list.initialized, r.cmd.run)) = some (false, some [Msg.clearKey]) ∧
    (Update (envOf threeFiles) (Msg.path "/srv") (listWith threeFiles 0)).map
        (fun r => (r.list.initialized, r.cmd.run)) =
      some (false, some [Msg.entry (fileEntry "a")]) ∧
    (Update (envOf threeFiles) (Msg.key "j") (listWith threeFiles 0)).map
        (fun r => (r.list.initialized, r.cmd.run)) =
      some (false, some [Msg.entry (fileEntry "b")]) := by
  decide

/-- C7, amended. On a state with `initialized = false`, every message whose
case runs on to the end of `Update` (window-resize, the keys `g`, `G`,
`enter` and keys without a case, message types without a case; for `enter`
the selection must be readable) returns a state with `initialized = true`
and the batch of two commands delivering `PathMsg` for the current path and
`EntryMsg` for the current selection. Every other message (path-change,
update-entries, clear-key, mouse, the keys with an early return) leaves
`initialized = false`, so the start-up batch waits for a later message. -/
theorem C7_bootstrap (env : Env) (msg : Msg) (l : ListModel) (hinit : l.initialized = false)
    (hsel : msg = Msg.key "enter" → SelectedEntry l ≠ none) :
    (reachesTail msg →
      ∃ r e, Update env msg l = some r ∧ r.list.initialized = true ∧ r.list.path = l.path ∧
        r.cmd = Cmd.batch (Cmd.emit (Msg.path r.list.path)) (Cmd.selectedEntry r.list) ∧
        SelectedEntry r.list = some e ∧
        r.cmd.run = some [Msg.path l.path, Msg.entry e]) ∧
    (¬ reachesTail msg → ∀ r, Update env msg l = some r → r.list.initialized = false) := by
  constructor
  · intro hmsg
    obtain ⟨l2, effects, hU, hi2, hp2⟩ := Update_reachesTail env msg l hmsg hsel
    obtain ⟨h1, h2, h3, e, h4, h5⟩ := updateTail_bootstrap_run l2 effects (by rw [hi2, hinit])
    exact ⟨_, e, hU, h1, by rw [h2, hp2], h3, h4, by rw [h5, hp2]⟩
  · intro hmsg r hU
    rw [Update_early_initialized env msg l r hmsg hU, hinit]

/-- C7, amended, at the key `enter` on the list as constructed, whose selection is readable. -/
theorem C7_bootstrap_witness :
    (listWith threeFiles 0).initialized = false ∧
    (Msg.key "enter" = Msg.key "enter" → SelectedEntry (listWith threeFiles 0) ≠ none) ∧
    reachesTail (Msg.key "enter") ∧
    ((reachesTail (Msg.key "enter") →
      ∃ r e, Update (envOf threeFiles) (Msg.key "enter") (listWith threeFiles 0) = some r ∧
        r.list.initialized = true ∧ r.list.path = (listWith threeFiles 0).path ∧
        r.cmd = Cmd.batch (Cmd.emit (Msg.path r.list.path)) (Cmd.selectedEntry r.list) ∧
        SelectedEntry r.list = some e ∧
        r.cmd.run = some [Msg.path (listWith threeFiles 0).path, Msg.entry e]) ∧
    (¬ reachesTail (Msg.key "enter") →
      ∀ r, Update (envOf threeFiles) (Msg.key "enter") (listWith threeFiles 0) = some r →
        r.list.initialized = false)) :=
  ⟨rfl, by decide, by unfold reachesTail; decide,
    C7_bootstrap (envOf threeFiles) (Msg.key "enter") (listWith threeFiles 0) rfl (by decide)⟩

/-- The start-up batch, evaluated for the window-resize message and the key `g`. -/
theorem bootstrap_examples :
    (Update (envOf threeFiles) (Msg.windowSize 80 24) (listWith threeFiles 0)).map
        (fun r => (r.list.initialized, r.cmd.run)) =
      some (true, some [Msg.path "/home/u", Msg.entry (fileEntry "a")]) ∧
    (Update (envOf threeFiles) (Msg.key "g") (listWith threeFiles 0)).map
        (fun r => (r.list.initialized, r.cmd.run)) =
      some (true, some [Msg.path "/home/u", Msg.entry (fileEntry "a")]) := by
  decide

/-! ## Window resize and the viewport -/

/-- A value inside the 64-bit range is not changed by wrapping. -/
theorem wrapInt64_of_inRange (x : Int)
    (h : -9223372036854775808 ≤ x ∧ x < 9223372036854775808) : wrapInt64 x = x := by
  unfold wrapInt64
  omega

/-- The window-resize case of `Update`: the dimensions come from the fields of the list itself. -/
theorem Update_windowSize (env : Env) (w h : Int) (l : ListModel) :
    Update env (Msg.windowSize w h) l =
      some (updateTail
        { l with flexBox := { width := l.Width, height := l.Height },
                 truncateLimit := wrapInt64 (env.nameColumnWidth l.Width l.Height - 1),
                 maxEntryToShow := Int.tdiv (wrapInt64 (l.Height * 3)) 4 } []) := by
  simp [Update]

/-- C8 as stated fails: the list as constructed has `Width = 0` and
`Height = 0`; after a window-resize message carrying 80 by 24 they are still
0 and `maxEntryToShow` is 0, not 18. -/
theorem C8_resize_ignores_message_size :
    ∃ r, Update (envOf threeFiles) (Msg.windowSize 80 24) (listWith threeFiles 0) = some r ∧
      r.list.Width ≠ 80 ∧ r.list.Height ≠ 24 ∧
      r.list.maxEntryToShow ≠ Int.tdiv (24 * 3) 4 ∧
      r.list.Width = 0 ∧ r.list.Height = 0 ∧ r.list.maxEntryToShow = 0 :=
  ⟨updateTail
      { listWith threeFiles 0 with
          flexBox := { width := 0, height := 0 },
          truncateLimit := wrapInt64 ((envOf threeFiles).nameColumnWidth 0 0 - 1),
          maxEntryToShow := Int.tdiv (wrapInt64 (0 * 3)) 4 } [],
    by decide, by decide, by decide, by decide, by decide, by decide, by decide⟩

/-- C8, amended. `Update` does not read the width and height carried by a
window-resize message. For every state and every such message the call
returns, and the fields `Width` and `Height` are the ones the state held
before the call. `maxEntryToShow` is the product of that stored `Height`
and 3, as the 64-bit Go `int` holds it, divided by 4 with truncation toward
zero; whenever the product fits in 64 bits this is `Height * 3 / 4`. The
stored dimensions are pushed into the layout box, and `truncateLimit` is the
width of the name column minus 1 as the 64-bit Go `int` holds it, which is
the width minus 1 for every width from 0 up to the largest `int`. -/
theorem C8_window_resize (env : Env) (w h : Int) (l : ListModel) :
    ∃ r, Update env (Msg.windowSize w h) l = some r ∧
      r.list.Width = l.Width ∧ r.list.Height = l.Height ∧
      r.list.maxEntryToShow = Int.tdiv (wrapInt64 (l.Height * 3)) 4 ∧
      ((-9223372036854775808 ≤ l.Height * 3 ∧ l.Height * 3 < 9223372036854775808) →
        r.list.maxEntryToShow = Int.tdiv (l.Height * 3) 4) ∧
      r.list.flexBox = { width := l.Width, height := l.Height } ∧
      r.list.truncateLimit = wrapInt64 (env.nameColumnWidth l.Width l.Height - 1) ∧
      ((0 ≤ env.nameColumnWidth l.Width l.Height ∧
          env.nameColumnWidth l.Width l.Height < 9223372036854775808) →
        r.list.truncateLimit = env.nameColumnWidth l.Width l.Height - 1) := by
  have hmax : (updateTail
        { l with flexBox := { width := l.Width, height := l.Height },
                 truncateLimit := wrapInt64 (env.nameColumnWidth l.Width l.Height - 1),
                 maxEntryToShow := Int.tdiv (wrapInt64 (l.Height * 3)) 4 } []).list.maxEntryToShow =
      Int.tdiv (wrapInt64 (l.Height * 3)) 4 := by
    rw [updateTail_list]; simp
  have hlim : (updateTail
        { l with flexBox := { width := l.Width, height := l.Height },
                 truncateLimit := wrapInt64 (env.nameColumnWidth l.Width l.Height - 1),
                 maxEntryToShow := Int.tdiv (wrapInt64 (l.Height * 3)) 4 } []).list.truncateLimit =
      wrapInt64 (env.nameColumnWidth l.Width l.Height - 1) := by
    rw [updateTail_list]; simp [restrictIndex]; split_ifs <;> rfl
  refine ⟨_, Update_windowSize env w h l, ?_, ?_, hmax, ?_, ?_, hlim, ?_⟩
  · rw [updateTail_list]; simp
  · rw [updateTail_list]; simp
  · intro hfit
    rw [hmax, wrapInt64_of_inRange _ hfit]
  · rw [updateTail_list]; simp [restrictIndex]; split_ifs <;> rfl
  · intro hw
    rw [hlim, wrapInt64_of_inRange _ (by omega)]

/-- When the caller has stored the new height before the call, the result is three quarters of it. -/
theorem window_resize_example :
    (Update (envOf threeFiles) (Msg.windowSize 80 24)
        { listWith threeFiles 0 with Width := 80, Height := 24 }).map
      (fun r => (r.list.Width, r.list.Height, r.list.maxEntryToShow, r.list.truncateLimit)) =
      some (80, 24, 18, 39) := by
  decide

/-- With the stored height `2 ^ 62` the product `Height * 3` does not fit in
64 bits: the Go `int` holds `-(2 ^ 62)` and `maxEntryToShow` becomes
`-(2 ^ 60)`, not `3 * 2 ^ 60`. -/
theorem window_resize_wrap_example :
    (Update (envOf threeFiles) (Msg.windowSize 80 24)
        { listWith threeFiles 0 with Height := 4611686018427387904 }).map
      (fun r => r.list.maxEntryToShow) = some (-1152921504606846976) ∧
    Int.tdiv (4611686018427387904 * 3) 4 = 3458764513820540928 := by
  decide

/-- C9. The slice rendered by `View` contains the cursor: on a non-empty
listing with the cursor in bounds, `maxEntryToShow = Height * 3 / 4` and
`Height ≥ 4`, the bounds `startIndex = max(0, selected_index - maxEntryToShow)`
and `stopIndex = min(len(entries), startIndex + maxEntryToShow + Height / 4)`
satisfy `startIndex ≤ selected_index < stopIndex`. -/
theorem C9_viewport_contains_cursor (l : ListModel) (_hne : l.entries ≠ [])
    (hi : 0 ≤ l.selected_index ∧ l.selected_index < (l.entries.length : Int))
    (hmax : l.maxEntryToShow = Int.tdiv (l.Height * 3) 4) (hh : l.Height ≥ 4) :
    startIndex l = max 0 (l.selected_index - l.maxEntryToShow) ∧
    stopIndex l =
      min (l.entries.length : Int) (startIndex l + l.maxEntryToShow + Int.tdiv (l.Height * 1) 4) ∧
    startIndex l ≤ l.selected_index ∧ l.selected_index < stopIndex l := by
  refine ⟨rfl, rfl, ?_, ?_⟩
  · unfold startIndex max
    rw [hmax, Int.tdiv_eq_ediv (by omega) (by omega)]
    split_ifs <;> omega
  · unfold stopIndex startIndex max min
    rw [hmax, Int.tdiv_eq_ediv (by omega) (by omega), Int.tdiv_eq_ediv (by omega) (by omega)]
    split_ifs <;> omega

/-- C9 at six files in a window of height 4 with the cursor on the last entry. -/
theorem C9_viewport_contains_cursor_witness :
    ({ listWith sixFiles 5 with Height := 4, maxEntryToShow := 3 } : ListModel).entries ≠ [] ∧
    startIndex { listWith sixFiles 5 with Height := 4, maxEntryToShow := 3 } =
      max 0 (({ listWith sixFiles 5 with Height := 4, maxEntryToShow := 3 } : ListModel).selected_index -
        ({ listWith sixFiles 5 with Height := 4, maxEntryToShow := 3 } : ListModel).maxEntryToShow) ∧
    stopIndex { listWith sixFiles 5 with Height := 4, maxEntryToShow := 3 } =
      min (({ listWith sixFiles 5 with Height := 4, maxEntryToShow := 3 } : ListModel).entries.length : Int)
        (startIndex { listWith sixFiles 5 with Height := 4, maxEntryToShow := 3 } +
          ({ listWith sixFiles 5 with Height := 4, maxEntryToShow := 3 } : ListModel).maxEntryToShow +
          Int.tdiv (({ listWith sixFiles 5 with Height := 4, maxEntryToShow := 3 } : ListModel).Height * 1) 4) ∧
    startIndex { listWith sixFiles 5 with Height := 4, maxEntryToShow := 3 } ≤
      ({ listWith sixFiles 5 with Height := 4, maxEntryToShow := 3 } : ListModel).selected_index ∧
    ({ listWith sixFiles 5 with Height := 4, maxEntryToShow := 3 } : ListModel).selected_index <
      stopIndex { listWith sixFiles 5 with Height := 4, maxEntryToShow := 3 } :=
  ⟨by decide,
    C9_viewport_contains_cursor { listWith sixFiles 5 with Height := 4, maxEntryToShow := 3 }
      (by decide) (by decide) (by decide) (by decide)⟩

/-- The slice for six files in a window of height 4 with the cursor at 5 is `[2, 6)`. -/
theorem viewport_example :
    startIndex { listWith sixFiles 5 with Height := 4, maxEntryToShow := 3 } = 2 ∧
    stopIndex { listWith sixFiles 5 with Height := 4, maxEntryToShow := 3 } = 6 := by
  decide

/-! ## Descending into the selected entry -/

/-- C10. Descend into a directory: when the selected entry is a directory,
`Update` on `UpdateEntriesMsg{parent: false}` returns the state unchanged,
runs no inline effect, and returns a command delivering exactly one
`PathMsg`, for the symlink target when it is non-empty and for
`Join(path, name)` otherwise. When the selected entry is not a directory and
has no symlink target, the state is unchanged and the command is `nil`. -/
theorem C10_descend (env : Env) (l : ListModel) (e : Entry) (hsel : SelectedEntry l = some e) :
    (e.IsDir = true →
      ∃ r, Update env (Msg.updateEntries false) l = some r ∧ r.list = l ∧ r.effects = [] ∧
        r.cmd.run =
          some [Msg.path (if e.SymLinkPath ≠ "" then e.SymLinkPath else env.Join l.path e.Name)]) ∧
    (e.IsDir = false → e.SymLinkPath = "" →
      ∃ r, Update env (Msg.updateEntries false) l = some r ∧ r.list = l ∧ r.effects = [] ∧
        r.cmd = Cmd.nil ∧ r.cmd.run = some []) := by
  constructor
  · intro hdir
    refine ⟨{ list := l,
              cmd := changePath (if e.SymLinkPath ≠ "" then e.SymLinkPath else env.Join l.path e.Name),
              effects := [] }, ?_, rfl, rfl, rfl⟩
    simp [Update, getEntriesBelow, hsel, hdir]
  · intro hdir _
    refine ⟨{ list := l, cmd := Cmd.nil, effects := [] }, ?_, rfl, rfl, rfl, rfl⟩
    simp [Update, getEntriesBelow, hsel, hdir]

/-- C10 at a list whose only entry is a symbolic link to the directory `/etc`. -/
theorem C10_descend_witness :
    SelectedEntry (listWith [linkEntry "etc" "/etc" true] 0) = some (linkEntry "etc" "/etc" true) ∧
    (((linkEntry "etc" "/etc" true).IsDir = true →
      ∃ r, Update (envOf []) (Msg.updateEntries false) (listWith [linkEntry "etc" "/etc" true] 0) =
          some r ∧
        r.list = listWith [linkEntry "etc" "/etc" true] 0 ∧ r.effects = [] ∧
        r.cmd.run =
          some [Msg.path (if (linkEntry "etc" "/etc" true).SymLinkPath ≠ ""
            then (linkEntry "etc" "/etc" true).SymLinkPath
            else (envOf []).Join (listWith [linkEntry "etc" "/etc" true] 0).path
              (linkEntry "etc" "/etc" true).Name)]) ∧
    ((linkEntry "etc" "/etc" true).IsDir = false → (linkEntry "etc" "/etc" true).SymLinkPath = "" →
      ∃ r, Update (envOf []) (Msg.updateEntries false) (listWith [linkEntry "etc" "/etc" true] 0) =
          some r ∧
        r.list = listWith [linkEntry "etc" "/etc" true] 0 ∧ r.effects = [] ∧
        r.cmd = Cmd.nil ∧ r.cmd.run = some [])) :=
  ⟨by decide,
    C10_descend (envOf []) (listWith [linkEntry "etc" "/etc" true] 0) (linkEntry "etc" "/etc" true)
      (by decide)⟩

/-- The scenarios, evaluated: the key `l` delivers `UpdateEntriesMsg{}`; on a
link to `/etc` that message delivers `PathMsg{"/etc"}`, on a plain directory
`sub` it delivers the joined path, and on a plain file it delivers nothing. -/
theorem descend_examples :
    (Update (envOf []) (Msg.key "l") (listWith [linkEntry "etc" "/etc" true] 0)).map
        (fun r => r.cmd.run) = some (some [Msg.updateEntries false]) ∧
    (Update (envOf []) (Msg.updateEntries false) (listWith [linkEntry "etc" "/etc" true] 0)).map
        (fun r => r.cmd.run) = some (some [Msg.path "/etc"]) ∧
    (Update (envOf []) (Msg.updateEntries false) (listWith [dirEntry "sub"] 0)).map
        (fun r => r.cmd.run) = some (some [Msg.path "/home/u/sub"]) ∧
    (Update (envOf []) (Msg.updateEntries false) (listWith [fileEntry "a"] 0)).map
        (fun r => r.cmd.run) = some (some []) := by
  decide

/-! ## Copying the path of the selected entry -/

/-- C11. Copy path: on a non-empty listing with the cursor in bounds, `Update`
with the key `c` writes to the clipboard the symlink target of the selected
entry when it is non-empty and `Join(path, name)` otherwise, and nothing
else; it returns the state unchanged and a command delivering exactly one
`NewMessageMsg` with the text `Copied!`. -/
theorem C11_copy_path (env : Env) (l : ListModel) (_hne : l.entries ≠ [])
    (hi : 0 ≤ l.selected_index ∧ l.selected_index < (l.entries.length : Int)) :
    ∃ r e, l.entries[l.selected_index.toNat]? = some e ∧
      Update env (Msg.key "c") l = some r ∧
      r.list = l ∧
      r.effects =
        [Effect.clipboardWrite
          (if e.SymLinkPath ≠ "" then e.SymLinkPath else env.Join l.path e.Name)] ∧
      r.cmd.run = some [Msg.newMessage "Copied!"] := by
  obtain ⟨e, he, hget⟩ := SelectedEntry_of_inBounds l hi
  refine ⟨{ list := l, cmd := Cmd.emit (Msg.newMessage "Copied!"),
            effects := [Effect.clipboardWrite (getFullPath env e l.path)] }, e, hget, ?_,
          rfl, rfl, rfl⟩
  simp [Update, updateKey, he]

/-- C11 at the path `/tmp` with the single plain file `a` selected. -/
theorem C11_copy_path_witness :
    ({ listWith [fileEntry "a"] 0 with path := "/tmp" } : ListModel).entries ≠ [] ∧
    ∃ r e, ({ listWith [fileEntry "a"] 0 with path := "/tmp" } : ListModel).entries[
          ({ listWith [fileEntry "a"] 0 with path := "/tmp" } : ListModel).selected_index.toNat]? =
        some e ∧
      Update (envOf []) (Msg.key "c") { listWith [fileEntry "a"] 0 with path := "/tmp" } = some r ∧
      r.list = { listWith [fileEntry "a"] 0 with path := "/tmp" } ∧
      r.effects =
        [Effect.clipboardWrite
          (if e.SymLinkPath ≠ "" then e.SymLinkPath
           else (envOf []).Join
             ({ listWith [fileEntry "a"] 0 with path := "/tmp" } : ListModel).path e.Name)] ∧
      r.cmd.run = some [Msg.newMessage "Copied!"] :=
  ⟨by decide,
    C11_copy_path (envOf []) { listWith [fileEntry "a"] 0 with path := "/tmp" } (by decide)
      (by decide)⟩

/-- The scenario of the specification, evaluated with a `Join` that puts one
separator between its arguments: path `/tmp`, entry `a` without symlink puts
`/tmp/a` on the clipboard; a link to `/etc` puts `/etc` there. -/
theorem copy_path_examples :
    (Update (envOf []) (Msg.key "c") { listWith [fileEntry "a"] 0 with path := "/tmp" }).map
        (fun r => (r.effects, r.cmd.run)) =
      some ([Effect.clipboardWrite "/tmp/a"], some [Msg.newMessage "Copied!"]) ∧
    (Update (envOf []) (Msg.key "c")
        { listWith [linkEntry "etc" "/etc" true] 0 with path := "/tmp" }).map
        (fun r => (r.effects, r.cmd.run)) =
      some ([Effect.clipboardWrite "/etc"], some [Msg.newMessage "Copied!"]) := by
  decide

/-! ## Name truncation -/

/-- The three bytes appended by `truncateText`. -/
theorem goBytes_dots_length : (goBytes "...").length = 3 := by decide

/-- C13. Name truncation: for every byte string `s` and every limit of at
least 3, `truncateText` returns; the result is `s` itself when
`len(s) ≤ limit`, and otherwise the first `limit - 3` bytes of `s` followed by
`...`; in both cases it is at most `limit` bytes long. -/
theorem C13_truncateText (s : List UInt8) (limit : Int) (h3 : limit ≥ 3) :
    ∃ out, truncateText s limit = some out ∧
      ((s.length : Int) ≤ limit → out = s) ∧
      ((s.length : Int) > limit → out = s.take (limit - 3).toNat ++ goBytes "...") ∧
      (out.length : Int) ≤ limit := by
  by_cases hlen : (s.length : Int) > limit
  · refine ⟨s.take (limit - 3).toNat ++ goBytes "...", ?_, ?_, ?_, ?_⟩
    · unfold truncateText
      rw [if_pos hlen, if_neg (by omega)]
    · intro h; omega
    · intro _; rfl
    · rw [List.length_append, List.length_take, goBytes_dots_length]
      omega
  · refine ⟨s, ?_, ?_, ?_, ?_⟩
    · unfold truncateText
      rw [if_neg hlen]
    · intro _; rfl
    · intro h; exact absurd h hlen
    · omega

/-- C13 at `hello world` with the limit 10. -/
theorem C13_truncateText_witness :
    (10 : Int) ≥ 3 ∧
    ∃ out, truncateText (goBytes "hello world") 10 = some out ∧
      (((goBytes "hello world").length : Int) ≤ 10 → out = goBytes "hello world") ∧
      (((goBytes "hello world").length : Int) > 10 →
        out = (goBytes "hello world").take ((10 : Int) - 3).toNat ++ goBytes "...") ∧
      (out.length : Int) ≤ 10 :=
  ⟨by decide, C13_truncateText (goBytes "hello world") 10 (by decide)⟩

/-- The examples of the claim: `hello world` is unchanged at the limit 11 and
becomes `hello w...` at the limit 10. -/
theorem truncateText_examples :
    truncateText (goBytes "hello world") 11 = some (goBytes "hello world") ∧
    truncateText (goBytes "hello world") 10 = some (goBytes "hello w...") := by
  decide

/-! ## The empty listing -/

/-- C15. Empty listing is safe: with no entries, whatever integer the cursor
holds, `View` returns the literal string `Empty` and `SelectedEntry` returns
the zero entry; neither fails. -/
theorem C15_empty_listing (rd : Renderer) (l : ListModel) (h : l.entries = []) :
    View rd l = some "Empty" ∧ SelectedEntry l = some Entry.zero := by
  constructor
  · unfold View
    simp [h]
  · exact SelectedEntry_of_empty l h

/-- C15 at the empty listing with the cursor at `-1`. -/
theorem C15_empty_listing_witness :
    (listWith [] (-1)).entries = [] ∧
    View plainRenderer (listWith [] (-1)) = some "Empty" ∧
    SelectedEntry (listWith [] (-1)) = some Entry.zero :=
  ⟨rfl, C15_empty_listing plainRenderer (listWith [] (-1)) rfl⟩

/-! ## Hidden files -/

/-- C16. The hidden-files toggle: `Update` with the key `m` returns the state
with `showHidden` negated and nothing else changed, runs no inline effect,
and returns a command delivering exactly one `PathMsg` for the unchanged
path. A second `m` returns the original state, so a path change afterwards
is handled exactly as on the original state. -/
theorem C16_toggle_hidden (env : Env) (l : ListModel) :
    ∃ r, Update env (Msg.key "m") l = some r ∧
      r.list = { l with showHidden := !l.showHidden } ∧
      r.effects = [] ∧
      r.cmd.run = some [Msg.path l.path] ∧
      ∃ r2, Update env (Msg.key "m") r.list = some r2 ∧
        r2.list = l ∧
        r2.cmd.run = some [Msg.path l.path] ∧
        ∀ p, Update env (Msg.path p) r2.list = Update env (Msg.path p) l := by
  have hm : ∀ x : ListModel, Update env (Msg.key "m") x =
      some { list := { x with showHidden := !x.showHidden }, cmd := Cmd.emit (Msg.path x.path),
             effects := [] } := by
    intro x
    simp [Update, updateKey]
  have hback : ({ ({ l with showHidden := !l.showHidden } : ListModel) with
      showHidden := !(!l.showHidden) } : ListModel) = l := by
    cases l
    simp
  refine ⟨_, hm l, rfl, rfl, rfl, _, hm _, hback, rfl, ?_⟩
  intro p
  exact congrArg (Update env (Msg.path p)) hback

/-- The toggle evaluated twice on the list as constructed. -/
theorem toggle_hidden_example :
    (runMsgs (envOf threeFiles) [Msg.key "m"] (listWith threeFiles 1)).map
        (fun l => l.showHidden) = some true ∧
    runMsgs (envOf threeFiles) [Msg.key "m", Msg.key "m"] (listWith threeFiles 1) =
      some (listWith threeFiles 1) := by
  decide

/-! ## Keys on an empty listing -/

/-- The cursor after the tail of `Update` on an empty listing with the cursor at `j`. -/
theorem updateTail_empty (l : ListModel) (effects : List Effect) (he : l.entries = []) :
    (updateTail l effects).list.entries = [] ∧
    (updateTail l effects).list.selected_index = (if l.selected_index < 0 then -1 else 0) := by
  rw [updateTail_list]
  refine ⟨by simpa using he, ?_⟩
  simp only [restrictIndex_selected_index, he, List.length_nil]
  split_ifs <;> omega

/-- On an empty listing with the cursor at `0`, a key other than `G`, `w`,
`up`, `k` returns a state with the cursor at `0`. -/
theorem updateKey_empty_other (env : Env) (k : String) (l : ListModel)
    (he : l.entries = []) (hs : l.selected_index = 0)
    (hG : k ≠ "G") (hup : ¬ (k = "w" ∨ k = "up" ∨ k = "k")) :
    ∃ r, updateKey env k l = some r ∧ r.list.entries = [] ∧ r.list.selected_index = 0 := by
  have hsel : SelectedEntry l = some Entry.zero := SelectedEntry_of_empty l he
  have htail : ∀ (x : ListModel) (eff : List Effect), x.entries = [] → x.selected_index = 0 →
      (updateTail x eff).list.entries = [] ∧ (updateTail x eff).list.selected_index = 0 := by
    intro x eff hx hx0
    have := updateTail_empty x eff hx
    rw [hx0] at this
    simpa using this
  unfold updateKey
  rw [if_neg hG, if_neg hup]
  split
  · exact ⟨_, rfl, he, hs⟩
  split
  · refine ⟨_, rfl, htail _ _ ?_ ?_⟩
    · split_ifs <;> exact he
    · split_ifs
      · rfl
      · exact hs
  split
  · exact ⟨_, rfl, he, hs⟩
  split
  · rw [hsel]; exact ⟨_, rfl, he, hs⟩
  split
  · obtain ⟨e2, he2⟩ := SelectedEntry_restrictIndex { l with selected_index := l.selected_index + 1 }
    dsimp only
    rw [he2]
    refine ⟨_, rfl, by simpa using he, ?_⟩
    simp only [restrictIndex_selected_index, he, hs, List.length_nil]
    decide
  split
  · exact ⟨_, rfl, he, hs⟩
  split
  · exact ⟨_, rfl, he, hs⟩
  split
  · rw [hsel]; exact ⟨_, rfl, htail _ _ he hs⟩
  · exact ⟨_, rfl, htail _ _ he hs⟩

/-- C14 as stated fails: on the empty listing with the cursor at `0`, the key
`G` returns a state with the cursor at `-1`, and so do `k`, `w` and `up`. -/
theorem C14_empty_G_gives_minus_one :
    (listWith [] 0).entries = [] ∧ (listWith [] 0).selected_index = 0 ∧
    (Update (envOf []) (Msg.key "G") (listWith [] 0)).map (fun r => r.list.selected_index) =
      some (-1) ∧
    (Update (envOf []) (Msg.key "k") (listWith [] 0)).map (fun r => r.list.selected_index) =
      some (-1) ∧
    (Update (envOf []) (Msg.key "w") (listWith [] 0)).map (fun r => r.list.selected_index) =
      some (-1) ∧
    (Update (envOf []) (Msg.key "up") (listWith [] 0)).map (fun r => r.list.selected_index) =
      some (-1) := by
  decide

/-- C14, amended. On a state with no entries and the cursor at `0`, every key
message returns; the listing stays empty and `SelectedEntry` of the returned
state is the zero entry. The returned cursor is `0` for every key except
`G`, `k`, `w` and `up`: these return the cursor `-1`, because `restrictIndex`
sends a negative index to `len(entries) - 1`. -/
theorem C14_empty_keys (env : Env) (l : ListModel) (k : String)
    (he : l.entries = []) (hs : l.selected_index = 0) :
    ∃ r, Update env (Msg.key k) l = some r ∧
      r.list.entries = [] ∧
      r.list.selected_index = (if k = "G" ∨ k = "w" ∨ k = "up" ∨ k = "k" then -1 else 0) ∧
      SelectedEntry r.list = some Entry.zero := by
  have key : ∃ r, Update env (Msg.key k) l = some r ∧ r.list.entries = [] ∧
      r.list.selected_index = (if k = "G" ∨ k = "w" ∨ k = "up" ∨ k = "k" then -1 else 0) := by
    by_cases hG : k = "G"
    · subst hG
      have h := updateTail_empty { l with selected_index := (l.entries.length : Int) - 1 } [] he
      refine ⟨updateTail { l with selected_index := (l.entries.length : Int) - 1 } [], ?_, h.1, ?_⟩
      · simp [Update, updateKey]
      · rw [h.2]
        simp [he]
    · by_cases hup : k = "w" ∨ k = "up" ∨ k = "k"
      · have hk : k = "k" ∨ k = "w" ∨ k = "up" := by tauto
        obtain ⟨e, hsel⟩ :=
          SelectedEntry_restrictIndex { l with selected_index := l.selected_index - 1 }
        refine ⟨{ list := restrictIndex { l with selected_index := l.selected_index - 1 },
                  cmd := updateEntry e, effects := [] }, ?_, by simpa using he, ?_⟩
        · rw [updateKey_up env k l hk, hsel]
        · rw [if_pos (Or.inr hup)]
          simp only [restrictIndex_selected_index, he, hs, List.length_nil]
          decide
      · obtain ⟨r, hr, hent, hzero⟩ := updateKey_empty_other env k l he hs hG hup
        refine ⟨r, hr, hent, ?_⟩
        rw [if_neg (by tauto), hzero]
  obtain ⟨r, hr, hent, hidx⟩ := key
  exact ⟨r, hr, hent, hidx, SelectedEntry_of_empty r.list hent⟩

/-- C14, amended, at the key `G` on the empty listing. -/
theorem C14_empty_keys_witness :
    (listWith [] 0).entries = [] ∧ (listWith [] 0).selected_index = 0 ∧
    ∃ r, Update (envOf []) (Msg.key "G") (listWith [] 0) = some r ∧
      r.list.entries = [] ∧
      r.list.selected_index =
        (if ("G" : String) = "G" ∨ ("G" : String) = "w" ∨ ("G" : String) = "up" ∨
            ("G" : String) = "k" then -1 else 0) ∧
      SelectedEntry r.list = some Entry.zero :=
  ⟨rfl, rfl, C14_empty_keys (envOf []) (listWith [] 0) "G" rfl rfl⟩

/-- Keys on the empty listing, evaluated: `j` and `g g` keep the cursor at
`0`; after `G` the cursor is `-1` and a later path change to a directory of
three files puts it on the last entry. -/
theorem empty_listing_key_examples :
    (runMsgs (envOf []) [Msg.key "j"] (listWith [] 0)).map (fun l => l.selected_index) = some 0 ∧
    (runMsgs (envOf []) [Msg.key "g", Msg.key "g"] (listWith [] 0)).map
        (fun l => l.selected_index) = some 0 ∧
    (runMsgs (envOf threeFiles) [Msg.key "G", Msg.path "/srv"] (listWith [] 0)).map
        (fun l => l.selected_index) = some 2 := by
  decide

/-! ## Descending through a symbolic link -/

/-- C18 as stated fails: a symbolic link with the present target
`/etc/passwd` whose `IsDir` flag is not set is selected, and
`UpdateEntriesMsg{parent: false}` returns the `nil` command: no `PathMsg` is
delivered. -/
theorem C18_link_to_file_no_command :
    SelectedEntry (listWith [linkEntry "passwd" "/etc/passwd" false] 0) =
      some (linkEntry "passwd" "/etc/passwd" false) ∧
    (linkEntry "passwd" "/etc/passwd" false).SymLinkPath ≠ "" ∧
    (Update (envOf []) (Msg.updateEntries false)
        (listWith [linkEntry "passwd" "/etc/passwd" false] 0)).map
      (fun r => (r.cmd, r.cmd.run)) = some (Cmd.nil, some []) := by
  decide

/-- C18, amended. `Update` with `UpdateEntriesMsg{parent: false}` returns the
state unchanged and a command other than `nil` exactly when the selected
entry has `IsDir` set. For a symbolic link with a present target and `IsDir`
set the command delivers `PathMsg` for the target; for any entry without
`IsDir`, a symbolic link with a present target included, the command
delivers nothing. -/
theorem C18_descend_symlink (env : Env) (l : ListModel) (e : Entry)
    (hsel : SelectedEntry l = some e) :
    ∃ r, Update env (Msg.updateEntries false) l = some r ∧ r.list = l ∧
      (r.cmd ≠ Cmd.nil ↔ e.IsDir = true) ∧
      (e.IsDir = true → e.SymLinkPath ≠ "" → r.cmd.run = some [Msg.path e.SymLinkPath]) ∧
      (e.IsDir = false → r.cmd.run = some []) := by
  cases hdir : e.IsDir with
  | false =>
    refine ⟨{ list := l, cmd := Cmd.nil, effects := [] }, ?_, rfl, ?_, ?_, ?_⟩
    · simp [Update, getEntriesBelow, hsel, hdir]
    · simp
    · intro h; cases h
    · intro _; rfl
  | true =>
    refine ⟨{ list := l,
              cmd := changePath (if e.SymLinkPath ≠ "" then e.SymLinkPath else env.Join l.path e.Name),
              effects := [] }, ?_, rfl, ?_, ?_, ?_⟩
    · simp [Update, getEntriesBelow, hsel, hdir]
    · simp [changePath]
    · intro _ hlink
      simp [changePath, Cmd.run, hlink]
    · intro h; cases h

/-- C18, amended, at a link to the directory `/etc`. -/
theorem C18_descend_symlink_witness :
    SelectedEntry (listWith [linkEntry "etc" "/etc" true] 0) = some (linkEntry "etc" "/etc" true) ∧
    ∃ r, Update (envOf []) (Msg.updateEntries false) (listWith [linkEntry "etc" "/etc" true] 0) =
        some r ∧
      r.list = listWith [linkEntry "etc" "/etc" true] 0 ∧
      (r.cmd ≠ Cmd.nil ↔ (linkEntry "etc" "/etc" true).IsDir = true) ∧
      ((linkEntry "etc" "/etc" true).IsDir = true → (linkEntry "etc" "/etc" true).SymLinkPath ≠ "" →
        r.cmd.run = some [Msg.path (linkEntry "etc" "/etc" true).SymLinkPath]) ∧
      ((linkEntry "etc" "/etc" true).IsDir = false → r.cmd.run = some []) :=
  ⟨by decide,
    C18_descend_symlink (envOf []) (listWith [linkEntry "etc" "/etc" true] 0)
      (linkEntry "etc" "/etc" true) (by decide)⟩

/-! ## Up and down are inverse -/

/-- The state after a "down" key on a cursor in bounds. -/
theorem Update_down_inBounds (env : Env) (l : ListModel) (k : String)
    (hk : k = "j" ∨ k = "s" ∨ k = "down")
    (hi : 0 ≤ l.selected_index ∧ l.selected_index < (l.entries.length : Int)) :
    ∃ e, Update env (Msg.key k) l =
      some { list := { l with selected_index :=
                        if l.selected_index < (l.entries.length : Int) - 1 then l.selected_index + 1
                        else 0 },
             cmd := updateEntry e, effects := [] } := by
  have hne : l.entries ≠ [] := by
    intro h; rw [h] at hi; simp at hi; omega
  obtain ⟨e, he, _⟩ := navigation_step l (l.selected_index + 1) hne
  have hr : restrictIndex { l with selected_index := l.selected_index + 1 } =
      { l with selected_index :=
          if l.selected_index < (l.entries.length : Int) - 1 then l.selected_index + 1 else 0 } := by
    unfold restrictIndex
    dsimp only
    rw [if_neg (by omega)]
    by_cases hlast : l.selected_index < (l.entries.length : Int) - 1
    · rw [if_neg (by omega), if_pos hlast]
    · rw [if_pos (by omega), if_neg hlast]
  refine ⟨e, ?_⟩
  rw [updateKey_down env k l hk, he, hr]

/-- The state after an "up" key on a cursor in bounds. -/
theorem Update_up_inBounds (env : Env) (l : ListModel) (k : String)
    (hk : k = "k" ∨ k = "w" ∨ k = "up")
    (hi : 0 ≤ l.selected_index ∧ l.selected_index < (l.entries.length : Int)) :
    ∃ e, Update env (Msg.key k) l =
      some { list := { l with selected_index :=
                        if l.selected_index > 0 then l.selected_index - 1
                        else (l.entries.length : Int) - 1 },
             cmd := updateEntry e, effects := [] } := by
  have hne : l.entries ≠ [] := by
    intro h; rw [h] at hi; simp at hi; omega
  obtain ⟨e, he, _⟩ := navigation_step l (l.selected_index - 1) hne
  have hr : restrictIndex { l with selected_index := l.selected_index - 1 } =
      { l with selected_index :=
          if l.selected_index > 0 then l.selected_index - 1 else (l.entries.length : Int) - 1 } := by
    unfold restrictIndex
    dsimp only
    by_cases hpos : l.selected_index > 0
    · rw [if_neg (by omega), if_neg (by omega), if_pos hpos]
    · rw [if_pos (by omega), if_neg hpos]
  refine ⟨e, ?_⟩
  rw [updateKey_up env k l hk, he, hr]

/-- After `m` "down" keys the cursor has advanced by `m` modulo the length. -/
theorem runMsgs_down (env : Env) (m : Nat) (l : ListModel)
    (hi : 0 ≤ l.selected_index ∧ l.selected_index < (l.entries.length : Int)) :
    runMsgs env (List.replicate m (Msg.key "j")) l =
      some { l with selected_index := (l.selected_index + m) % (l.entries.length : Int) } := by
  induction m generalizing l with
  | zero =>
    simp only [List.replicate, runMsgs, Nat.cast_zero, add_zero]
    rw [Int.emod_eq_of_lt hi.1 hi.2]
  | succ m ih =>
    obtain ⟨e, he⟩ := Update_down_inBounds env l "j" (Or.inl rfl) hi
    simp only [List.replicate, runMsgs, he]
    rw [ih]
    · dsimp only
      congr 2
      by_cases hlast : l.selected_index < (l.entries.length : Int) - 1
      · rw [if_pos hlast]
        push_cast
        congr 1
        omega
      · rw [if_neg hlast]
        have hlen : l.selected_index = (l.entries.length : Int) - 1 := by omega
        rw [hlen]
        push_cast
        have : (l.entries.length : Int) - 1 + ((m : Int) + 1) = (0 + (m : Int)) + l.entries.length := by
          omega
        rw [this, Int.add_emod_self]
    · dsimp only
      split_ifs <;> omega

/-- C19. Up and down are mutually inverse: on a non-empty listing with the
cursor in bounds, `j` then `k` returns the original cursor, `k` then `j`
returns the original cursor, and `j` pressed `len(entries)` times returns the
original cursor. -/
theorem C19_up_down_inverse (env : Env) (l : ListModel) (_hne : l.entries ≠ [])
    (hi : 0 ≤ l.selected_index ∧ l.selected_index < (l.entries.length : Int)) :
    (∃ r1 r2, Update env (Msg.key "j") l = some r1 ∧ Update env (Msg.key "k") r1.list = some r2 ∧
      r2.list.selected_index = l.selected_index) ∧
    (∃ r1 r2, Update env (Msg.key "k") l = some r1 ∧ Update env (Msg.key "j") r1.list = some r2 ∧
      r2.list.selected_index = l.selected_index) ∧
    (∃ l2, runMsgs env (List.replicate l.entries.length (Msg.key "j")) l = some l2 ∧
      l2.selected_index = l.selected_index) := by
  refine ⟨?_, ?_, ?_⟩
  · obtain ⟨e1, h1⟩ := Update_down_inBounds env l "j" (Or.inl rfl) hi
    obtain ⟨e2, h2⟩ := Update_up_inBounds env
      { l with selected_index :=
          if l.selected_index < (l.entries.length : Int) - 1 then l.selected_index + 1 else 0 }
      "k" (Or.inl rfl) (by dsimp only; split_ifs <;> omega)
    refine ⟨_, _, h1, h2, ?_⟩
    dsimp only
    split_ifs <;> omega
  · obtain ⟨e1, h1⟩ := Update_up_inBounds env l "k" (Or.inl rfl) hi
    obtain ⟨e2, h2⟩ := Update_down_inBounds env
      { l with selected_index :=
          if l.selected_index > 0 then l.selected_index - 1 else (l.entries.length : Int) - 1 }
      "j" (Or.inl rfl) (by dsimp only; split_ifs <;> omega)
    refine ⟨_, _, h1, h2, ?_⟩
    dsimp only
    split_ifs <;> omega
  · refine ⟨_, runMsgs_down env l.entries.length l hi, ?_⟩
    dsimp only
    rw [Int.add_emod_self, Int.emod_eq_of_lt hi.1 hi.2]

/-- C19 at three files with the cursor on the last one. -/
theorem C19_up_down_inverse_witness :
    (listWith threeFiles 2).entries ≠ [] ∧
    (∃ r1 r2, Update (envOf threeFiles) (Msg.key "j") (listWith threeFiles 2) = some r1 ∧
      Update (envOf threeFiles) (Msg.key "k") r1.list = some r2 ∧
      r2.list.selected_index = (listWith threeFiles 2).selected_index) ∧
    (∃ r1 r2, Update (envOf threeFiles) (Msg.key "k") (listWith threeFiles 2) = some r1 ∧
      Update (envOf threeFiles) (Msg.key "j") r1.list = some r2 ∧
      r2.list.selected_index = (listWith threeFiles 2).selected_index) ∧
    (∃ l2, runMsgs (envOf threeFiles)
        (List.replicate (listWith threeFiles 2).entries.length (Msg.key "j"))
        (listWith threeFiles 2) = some l2 ∧
      l2.selected_index = (listWith threeFiles 2).selected_index) :=
  ⟨by decide,
    C19_up_down_inverse (envOf threeFiles) (listWith threeFiles 2) (by decide) (by decide)⟩

/-- The cursor along `j`, `j`, `j` and along `j`, `k` from the last of three files. -/
theorem up_down_examples :
    (runMsgs (envOf threeFiles) [Msg.key "j"] (listWith threeFiles 2)).map
        (fun l => l.selected_index) = some 0 ∧
    (runMsgs (envOf threeFiles) [Msg.key "j", Msg.key "k"] (listWith threeFiles 2)).map
        (fun l => l.selected_index) = some 2 ∧
    (runMsgs (envOf threeFiles) [Msg.key "j", Msg.key "j", Msg.key "j"] (listWith threeFiles 2)).map
        (fun l => l.selected_index) = some 2 := by
  decide

/-! ## Mouse clicks -/

/-- The mouse case on a left click inside the zone whose row passes the bounds test. -/
theorem Update_mouse_accepted (env : Env) (l : ListModel) (y now : Int)
    (hy : 2 ≤ y ∧ y ≤ (l.entries.length : Int) + 2 - 1) :
    Update env (Msg.mouse true true y now) l =
      if now - l.lastClickedTime < l.clickDelay then
        match SelectedEntry { l with selected_index := startIndex l + (y - 2) } with
        | none => none
        | some e =>
          if e.IsDir then
            match getEntriesBelow env { l with selected_index := startIndex l + (y - 2) } with
            | none => none
            | some _ =>
              some { list := restrictIndex { l with selected_index := startIndex l + (y - 2) },
                     cmd := Cmd.emit (Msg.updateEntries false), effects := [] }
          else
            some { list := { l with selected_index := startIndex l + (y - 2), lastClickedTime := now },
                   cmd := Cmd.selectedEntry
                     { l with selected_index := startIndex l + (y - 2), lastClickedTime := now },
                   effects := [] }
      else
        some { list := { l with selected_index := startIndex l + (y - 2), lastClickedTime := now },
               cmd := Cmd.selectedEntry
                 { l with selected_index := startIndex l + (y - 2), lastClickedTime := now },
               effects := [] } := by
  have hidx : y + max 0 (l.selected_index - l.maxEntryToShow) - 2 = startIndex l + (y - 2) := by
    unfold startIndex; omega
  simp only [Update, updateMouse, Bool.not_true, Bool.or_self, Bool.false_eq_true, if_false]
  rw [if_neg (by omega), hidx]

/-- A click on a row whose entry exists: within the delay on a directory the
command delivers `UpdateEntriesMsg{parent: false}` and the path, the entries
and the click time are as before; otherwise the click time is stored and the
command delivers the `EntryMsg` of the entry under the new cursor. -/
theorem click_in_range (env : Env) (l : ListModel) (y now : Int)
    (hy : 2 ≤ y ∧ y ≤ (l.entries.length : Int) + 2 - 1)
    (hin : 0 ≤ startIndex l + (y - 2) ∧ startIndex l + (y - 2) < (l.entries.length : Int)) :
    ∃ r e, l.entries[(startIndex l + (y - 2)).toNat]? = some e ∧
      Update env (Msg.mouse true true y now) l = some r ∧
      r.list.selected_index = startIndex l + (y - 2) ∧
      r.list.path = l.path ∧ r.list.entries = l.entries ∧
      ((now - l.lastClickedTime < l.clickDelay ∧ e.IsDir = true) →
        r.cmd.run = some [Msg.updateEntries false] ∧ r.list.lastClickedTime = l.lastClickedTime) ∧
      (¬ (now - l.lastClickedTime < l.clickDelay ∧ e.IsDir = true) →
        r.cmd.run = some [Msg.entry e] ∧ r.list.lastClickedTime = now) := by
  obtain ⟨e, he, hget⟩ :=
    SelectedEntry_of_inBounds { l with selected_index := startIndex l + (y - 2) } hin
  have he2 : SelectedEntry
      { l with selected_index := startIndex l + (y - 2), lastClickedTime := now } = some e := he
  have hsingle : (Cmd.selectedEntry
      { l with selected_index := startIndex l + (y - 2), lastClickedTime := now }).run =
        some [Msg.entry e] := by
    simp only [Cmd.run, he2]
  by_cases hdouble : now - l.lastClickedTime < l.clickDelay ∧ e.IsDir = true
  · have hbelow : ∃ c, getEntriesBelow env { l with selected_index := startIndex l + (y - 2) } =
        some c := by
      unfold getEntriesBelow
      rw [he]
      simp [hdouble.2]
    obtain ⟨c, hc⟩ := hbelow
    refine ⟨{ list := restrictIndex { l with selected_index := startIndex l + (y - 2) },
              cmd := Cmd.emit (Msg.updateEntries false), effects := [] }, e, hget, ?_, ?_,
            by simp, by simp, ?_, fun h => absurd hdouble h⟩
    · rw [Update_mouse_accepted env l y now hy, if_pos hdouble.1, he]
      simp only [hdouble.2, if_true, hc]
    · rw [restrictIndex_of_inBounds _ hin]
    · intro _
      refine ⟨rfl, ?_⟩
      rw [restrictIndex_of_inBounds _ hin]
  · refine ⟨{ list := { l with selected_index := startIndex l + (y - 2), lastClickedTime := now },
              cmd := Cmd.selectedEntry
                { l with selected_index := startIndex l + (y - 2), lastClickedTime := now },
              effects := [] }, e, hget, ?_, rfl, rfl, rfl, fun h => absurd h hdouble,
            fun _ => ⟨hsingle, rfl⟩⟩
    rw [Update_mouse_accepted env l y now hy]
    by_cases htime : now - l.lastClickedTime < l.clickDelay
    · have hnd : e.IsDir = false := by
        cases hd : e.IsDir with
        | false => rfl
        | true => exact absurd ⟨htime, hd⟩ hdouble
      rw [if_pos htime, he]
      simp [hnd]
    · rw [if_neg htime]

/-- The new cursor of an accepted click is the first rendered index plus the
clicked row, whenever `Update` returns. -/
theorem click_row_alignment (env : Env) (l : ListModel) (y now : Int) (r : UpdateResult)
    (hy : 2 ≤ y ∧ y ≤ (l.entries.length : Int) + 2 - 1)
    (h : Update env (Msg.mouse true true y now) l = some r) :
    r.list.selected_index = startIndex l + (y - 2) := by
  by_cases hin : 0 ≤ startIndex l + (y - 2) ∧ startIndex l + (y - 2) < (l.entries.length : Int)
  · obtain ⟨r2, e, _, hU, hidx, _⟩ := click_in_range env l y now hy hin
    rw [hU] at h
    rw [← Option.some.inj h, hidx]
  · have hnone : SelectedEntry { l with selected_index := startIndex l + (y - 2) } = none := by
      unfold SelectedEntry
      dsimp only
      rw [if_neg (by omega)]
      split_ifs with hneg
      · rfl
      · exact List.getElem?_eq_none (by omega)
    rw [Update_mouse_accepted env l y now hy, hnone] at h
    split_ifs at h
    rw [← Option.some.inj h]

/-- A click on a rendered row lands inside the slice `View` renders. -/
theorem click_on_rendered_row (l : ListModel) (y : Int)
    (hy : 2 ≤ y) (hrow : y - 2 < stopIndex l - startIndex l) :
    startIndex l ≤ startIndex l + (y - 2) ∧ startIndex l + (y - 2) < stopIndex l ∧
    0 ≤ startIndex l + (y - 2) ∧ startIndex l + (y - 2) < (l.entries.length : Int) := by
  have hstart : 0 ≤ startIndex l := by
    unfold startIndex max; split_ifs <;> omega
  have hstop : stopIndex l ≤ (l.entries.length : Int) := by
    unfold stopIndex min; split_ifs <;> omega
  omega

/-- C12. An accepted click whose computed index is outside the listing: on
the scrolled list a click on zone row 19 more than the delay after the last
one returns a state with the click time stored but a command that fails
instead of delivering an `EntryMsg`; the same click within the delay makes
`Update` itself fail. -/
theorem C12_click_out_of_range :
    ((2 : Int) ≤ 19 ∧ (19 : Int) ≤ (scrolledList.entries.length : Int) + 2 - 1) ∧
    (Update (envOf []) (Msg.mouse true true 19 1000000000) scrolledList).map
        (fun r => (r.list.lastClickedTime, r.list.selected_index, r.cmd.run)) =
      some (1000000000, 21, none) ∧
    Update (envOf []) (Msg.mouse true true 19 100) scrolledList = none := by
  decide

/-- The double-click scenario of the specification, evaluated in a window of
height 20: two clicks on the row of the directory `sub` 0.2 s apart deliver
first the `EntryMsg`, then `UpdateEntriesMsg{}` without touching path or
entries, and that message delivers the joined path. -/
theorem double_click_example :
    (Update (envOf []) (Msg.mouse true true 3 1000000000)
        { listWith [fileEntry "a", dirEntry "sub"] 0 with Height := 20, maxEntryToShow := 15 }).map
      (fun r => (r.list.selected_index, r.list.lastClickedTime, r.cmd.run)) =
      some (1, 1000000000, some [Msg.entry (dirEntry "sub")]) ∧
    (Update (envOf []) (Msg.mouse true true 3 1200000000)
        { listWith [fileEntry "a", dirEntry "sub"] 1 with
            Height := 20, maxEntryToShow := 15, lastClickedTime := 1000000000 }).map
      (fun r => (r.list.path, r.list.entries, r.list.selected_index, r.cmd.run)) =
      some ("/home/u", [fileEntry "a", dirEntry "sub"], 1, some [Msg.updateEntries false]) ∧
    (Update (envOf []) (Msg.updateEntries false)
        { listWith [fileEntry "a", dirEntry "sub"] 1 with
            Height := 20, maxEntryToShow := 15, lastClickedTime := 1000000000 }).map
      (fun r => r.cmd.run) = some (some [Msg.path "/home/u/sub"]) := by
  decide

/-- C17. An accepted click that is not aligned with the rendered slice: on
the scrolled list (cursor 19 in bounds, rendered slice `[4, 20)`) the click
on zone row 19 passes the bounds test and the new cursor is
`startIndex + (19 - 2) = 21`, outside the rendered slice and outside the
listing of 20 entries. -/
theorem C17_click_outside_slice :
    (0 ≤ scrolledList.selected_index ∧
      scrolledList.selected_index < (scrolledList.entries.length : Int)) ∧
    ((2 : Int) ≤ 19 ∧ (19 : Int) ≤ (scrolledList.entries.length : Int) + 2 - 1) ∧
    startIndex scrolledList = 4 ∧ stopIndex scrolledList = 20 ∧
    ∃ r, Update (envOf []) (Msg.mouse true true 19 1000000000) scrolledList = some r ∧
      r.list.selected_index = startIndex scrolledList + (19 - 2) ∧
      r.list.selected_index = 21 ∧
      ¬ (r.list.selected_index < stopIndex scrolledList) ∧
      ¬ (r.list.selected_index < (scrolledList.entries.length : Int)) :=
  ⟨by decide, by decide, by decide, by decide,
    { list := { scrolledList with selected_index := 21, lastClickedTime := 1000000000 },
      cmd := Cmd.selectedEntry
        { scrolledList with selected_index := 21, lastClickedTime := 1000000000 },
      effects := [] },
    by decide, by decide, by decide, by decide, by decide⟩

/-! ## Truncation limits below 3 -/

/-- C20. `truncateText` fails on limits the window-resize case stores: with a
name column of width 3 the stored limit is 2 and the name `abc` is cut at
`str[:-1]`; with a name column of width 0 the stored limit is `-1` and even
the empty name is cut at `str[:-4]`. `View` of the resized list, which
renders the row of `abc`, fails with it. -/
theorem C20_truncateText_fails_below_three :
    (Update envNarrow (Msg.windowSize 6 20)
        { listWith [fileEntry "abc"] 0 with Width := 6, Height := 20 }).map
      (fun r => (r.list.truncateLimit, View plainRenderer r.list)) = some (2, none) ∧
    truncateText (goBytes "abc") 2 = none ∧
    (Update envZeroWidth (Msg.windowSize 0 20)
        { listWith [fileEntry "abc"] 0 with Width := 0, Height := 20 }).map
      (fun r => (r.list.truncateLimit, View plainRenderer r.list)) = some (-1, none) ∧
    truncateText (goBytes "") (-1) = none ∧
    truncateText (goBytes "abc") (-1) = none := by
  decide

/-- Whenever the limit is below 3 and the name is longer than the limit, `truncateText` fails. -/
theorem truncateText_fails (s : List UInt8) (limit : Int) (h3 : limit < 3)
    (hlen : (s.length : Int) > limit) : truncateText s limit = none := by
  unfold truncateText
  rw [if_pos hlen, if_pos (Or.inl (by omega))]

/-- With the limit the constructor sets, `View` renders the rows of the slice. -/
theorem View_example :
    View plainRenderer { listWith [fileEntry "a", dirEntry ".git"] 0 with Height := 4, maxEntryToShow := 3 } =
      some "Name\n a\n .git\nSize\n1 kB\n4 kB\nModify Time\nnow\nnow\n" := by
  decide

end Fman
